import Mathlib

/-!
Verification of the tiny-sip SIP user-agent library.

The Python source (tinysip) is shallowly embedded: strings become
`List Char`, Python `dict`s become insertion-ordered association lists,
fallible operations (`int()`, enum construction, exceptions) return
`Option`, and the asynchronous transaction machinery is modelled as pure
state-transition functions that also report the callbacks, timer starts
and timer cancellations the Python code performs, in order.
-/

namespace TinySip

/-- The characters Python's `str.strip()` removes by default. -/
def isPyWS (c : Char) : Bool :=
  c = ' ' || c = '\t' || c = '\n' || c = '\r' || c = '\x0b' || c = '\x0c'

/-- Drop whitespace from the right end, as the tail half of `str.strip()`. -/
def dropWSRight (s : List Char) : List Char :=
  (s.reverse.dropWhile isPyWS).reverse

/-- Python `str.strip()` with no arguments. -/
def pyStrip (s : List Char) : List Char :=
  dropWSRight (s.dropWhile isPyWS)

/-- Shorthand turning a Lean string literal into the `List Char` the model works on. -/
def chars (s : String) : List Char := s.data

/-- Python `c in s` for a single character. -/
def containsChar (c : Char) (s : List Char) : Bool := s.contains c

/-- Python `s.startswith(p)`. -/
def pyStartsWith (s p : List Char) : Bool := p.isPrefixOf s

/-- Python `s.endswith(p)`. -/
def pyEndsWith (s p : List Char) : Bool := p.reverse.isPrefixOf s.reverse

/-- Python `s.split(c, 1)`: split at the first occurrence of a one-character
separator; `none` when the separator does not occur. -/
def splitFirst (sep : Char) : List Char → Option (List Char × List Char)
  | [] => none
  | c :: rest =>
    if c = sep then some ([], rest)
    else match splitFirst sep rest with
      | none => none
      | some (l, r) => some (c :: l, r)

/-- Python `s.rsplit(c, 1)`: split at the last occurrence of a one-character
separator; `none` when the separator does not occur. -/
def rsplitFirst (sep : Char) (s : List Char) : Option (List Char × List Char) :=
  match splitFirst sep s.reverse with
  | none => none
  | some (r, l) => some (l.reverse, r.reverse)

/-- Python `s.split(c)` for a one-character separator (empties kept). -/
def splitAll (sep : Char) (s : List Char) : List (List Char) :=
  s.splitOn sep

/-- Python `s.split()` (no arguments): split on whitespace runs, no empties. -/
def splitWS (s : List Char) : List (List Char) :=
  (s.splitOnP isPyWS).filter (· ≠ [])

/-- Python `s.lower()` restricted to ASCII (the header names and parameter
keys the code lowercases are ASCII). -/
def pyLower (s : List Char) : List Char := s.map Char.toLower

/-- Python `s.upper()` restricted to ASCII. -/
def pyUpper (s : List Char) : List Char := s.map Char.toUpper

/-- One decimal digit. -/
def digitChar (n : Nat) : Char := Char.ofNat (48 + n % 10)

/-- Decimal digits, fuelled so the kernel can evaluate (`fuel ≥ digit count`). -/
def natReprFuel : Nat → Nat → List Char
  | 0, _ => []
  | fuel + 1, n =>
    if n < 10 then [digitChar n]
    else natReprFuel fuel (n / 10) ++ [digitChar (n % 10)]

/-- Decimal digits of a natural number, most significant first (`str(n)` for `n : Nat`). -/
def natRepr (n : Nat) : List Char := natReprFuel (n + 1) n

/-- Python `str(i)` for an `int`. -/
def intRepr (i : Int) : List Char :=
  if i < 0 then '-' :: natRepr (-i).toNat else natRepr i.toNat

/-- Value of a list of decimal digits, most significant first. -/
def digitsVal (l : List Char) : Nat :=
  l.foldl (fun acc c => acc * 10 + (c.toNat - 48)) 0

/-- Python `int(s)`: strip whitespace, optional sign, then decimal digits in
which single underscores may appear between digits; anything else fails. -/
def pyInt (s : List Char) : Option Int :=
  let t := pyStrip s
  match t with
  | '-' :: rest => (digitsBody rest).map (fun n => -(n : Int))
  | '+' :: rest => (digitsBody rest).map (fun n => (n : Int))
  | rest => (digitsBody rest).map (fun n => (n : Int))
where
  /-- Digit run with optional single underscores between digits. -/
  digitsBody (l : List Char) : Option Nat :=
    match l with
    | [] => none
    | c :: rest =>
      if c.isDigit then go rest (c.toNat - 48) else none
  go : List Char → Nat → Option Nat
    | [], acc => some acc
    | '_' :: c :: rest, acc =>
      if c.isDigit then go rest (acc * 10 + (c.toNat - 48)) else none
    | '_' :: [], _ => none
    | c :: rest, acc =>
      if c.isDigit then go rest (acc * 10 + (c.toNat - 48)) else none

/-- Python `s.split("\r\n")`: cut at each non-overlapping occurrence of CRLF,
scanning left to right. -/
def splitCRLF : List Char → List (List Char)
  | [] => [[]]
  | '\r' :: '\n' :: rest => [] :: splitCRLF rest
  | c :: rest =>
    match splitCRLF rest with
    | [] => [[c]]
    | l :: ls => (c :: l) :: ls

/-- Python `"\r\n".join(lines)`. -/
def joinCRLF : List (List Char) → List Char
  | [] => []
  | [l] => l
  | l :: ls => l ++ '\r' :: '\n' :: joinCRLF ls

/-- Whether the string contains the two-character sequence CRLF. -/
def hasCRLF : List Char → Bool
  | '\r' :: '\n' :: _ => true
  | _ :: rest => hasCRLF rest
  | [] => false

theorem splitCRLF_ne_nil (s : List Char) : splitCRLF s ≠ [] := by
  induction s using splitCRLF.induct with
  | case1 => simp [splitCRLF]
  | case2 rest ih => simp [splitCRLF.eq_2]
  | case3 c rest hne hnil ih => rw [splitCRLF.eq_3 c rest hne, hnil]; simp
  | case4 c rest hne l ls hcons ih => rw [splitCRLF.eq_3 c rest hne, hcons]; simp

/-- `hasCRLF` only grows when a character is prepended. -/
theorem hasCRLF_cons_of (c : Char) {rest : List Char} (h : hasCRLF rest = true) :
    hasCRLF (c :: rest) = true := by
  cases rest with
  | nil => simp [hasCRLF] at h
  | cons d rest' =>
    by_cases h1 : c = '\r' ∧ d = '\n'
    · obtain ⟨hc, hd⟩ := h1; subst hc; subst hd; rw [hasCRLF.eq_1]
    · rw [hasCRLF.eq_2]
      · exact h
      · intro t hc ht
        injection ht with hd' _
        exact h1 ⟨hc, hd'⟩

/-- `hasCRLF` is false on a tail whenever it is false on the whole list. -/
theorem hasCRLF_cons_false {c : Char} {rest : List Char}
    (h : hasCRLF (c :: rest) = false) : hasCRLF rest = false := by
  cases hr : hasCRLF rest with
  | false => rfl
  | true => rw [hasCRLF_cons_of c hr] at h; exact absurd h (by simp)

theorem splitCRLF_no_crlf {s : List Char} (h : hasCRLF s = false) :
    splitCRLF s = [s] := by
  induction s using splitCRLF.induct with
  | case1 => rfl
  | case2 rest ih => simp [hasCRLF] at h
  | case3 c rest hne hnil ih =>
    rw [ih (hasCRLF_cons_false h)] at hnil
    exact absurd hnil (by simp)
  | case4 c rest hne l ls hcons ih =>
    rw [splitCRLF.eq_3 c rest hne, hcons]
    rw [ih (hasCRLF_cons_false h)] at hcons
    injection hcons with h1 h2
    rw [← h1, ← h2]

theorem splitCRLF_append_sep {s : List Char} (h : hasCRLF s = false) (r : List Char) :
    splitCRLF (s ++ '\r' :: '\n' :: r) = s :: splitCRLF r := by
  induction s using splitCRLF.induct with
  | case1 => rfl
  | case2 rest ih => simp [hasCRLF] at h
  | case3 c rest hne hnil ih =>
    rw [splitCRLF_no_crlf (hasCRLF_cons_false h)] at hnil
    exact absurd hnil (by simp)
  | case4 c rest hne l ls hcons ih =>
    have hne' : ∀ r' : List Char, c = '\r' → rest ++ '\r' :: '\n' :: r = '\n' :: r' → False := by
      intro r' hc hr
      cases rest with
      | nil =>
        -- then hasCRLF (c :: rest) = hasCRLF ['\r'] would be fine, but c='\r' and
        -- the next char of the appended list is '\r', not '\n'; contradiction from hr
        simp at hr
      | cons d rest' =>
        injection hr with hd _
        exact hne rest' hc (by rw [hd])
    rw [List.cons_append, splitCRLF.eq_3 c _ hne', ih (hasCRLF_cons_false h)]

theorem joinCRLF_splitCRLF (s : List Char) : joinCRLF (splitCRLF s) = s := by
  induction s using splitCRLF.induct with
  | case1 => rfl
  | case2 rest ih =>
    rw [splitCRLF.eq_2]
    cases hsp : splitCRLF rest with
    | nil => exact absurd hsp (splitCRLF_ne_nil rest)
    | cons l ls =>
      rw [hsp] at ih
      show [] ++ '\r' :: '\n' :: joinCRLF (l :: ls) = '\r' :: '\n' :: rest
      rw [List.nil_append, ih]
  | case3 c rest hne hnil ih => exact absurd hnil (splitCRLF_ne_nil rest)
  | case4 c rest hne l ls hcons ih =>
    rw [splitCRLF.eq_3 c rest hne, hcons]
    rw [hcons] at ih
    cases ls with
    | nil => show c :: l = c :: rest; rw [show l = rest from ih]
    | cons l' ls' =>
      show (c :: l) ++ '\r' :: '\n' :: joinCRLF (l' :: ls') = c :: rest
      have : l ++ '\r' :: '\n' :: joinCRLF (l' :: ls') = rest := ih
      rw [List.cons_append, this]

/-- Split a string at the first occurrence of a multi-character separator. -/
def splitFirstSub (pat : List Char) : List Char → Option (List Char × List Char)
  | [] => if pat.isPrefixOf ([] : List Char) then some ([], []) else none
  | c :: rest =>
    if pat.isPrefixOf (c :: rest) then some ([], (c :: rest).drop pat.length)
    else match splitFirstSub pat rest with
      | none => none
      | some (l, r) => some (c :: l, r)

/-- Python `sub in s` for a multi-character needle. -/
def containsSub (pat s : List Char) : Bool := (splitFirstSub pat s).isSome

/-- `s.split(pat)[1]` for a multi-character separator: the segment between the
first and (if any) second occurrence of `pat`; `none` when `pat` is absent. -/
def pySplitSubIdx1 (pat s : List Char) : Option (List Char) :=
  match splitFirstSub pat s with
  | none => none
  | some (_, rest) =>
    match splitFirstSub pat rest with
    | none => some rest
    | some (mid, _) => some mid

/-- Python `s.split(" ", 2)`. -/
def splitSpaceMax2 (s : List Char) : List (List Char) :=
  match splitFirst ' ' s with
  | none => [s]
  | some (a, r) =>
    match splitFirst ' ' r with
    | none => [a, r]
    | some (b, r2) => [a, b, r2]

/-- Insertion-ordered dictionary update, as Python `d[k] = v`: replace the value
at the first matching key in place, else append. -/
def dictSet {K V : Type} [DecidableEq K] (d : List (K × V)) (k : K) (v : V) :
    List (K × V) :=
  match d with
  | [] => [(k, v)]
  | (k', v') :: rest =>
    if k' = k then (k', v) :: rest else (k', v') :: dictSet rest k v

/-- Python `d.get(k)` on an insertion-ordered dictionary. -/
def dictGet {K V : Type} [DecidableEq K] (d : List (K × V)) (k : K) : Option V :=
  (d.find? (fun p => p.1 = k)).map (·.2)

/-- Hex digit value, as accepted by percent-decoding. -/
def hexVal (c : Char) : Option Nat :=
  if '0' ≤ c ∧ c ≤ '9' then some (c.toNat - 48)
  else if 'a' ≤ c ∧ c ≤ 'f' then some (c.toNat - 87)
  else if 'A' ≤ c ∧ c ≤ 'F' then some (c.toNat - 55)
  else none

/-- `urllib.parse.unquote` restricted to single-byte (ASCII) escapes; invalid
escapes are left untouched.  Multi-byte UTF-8 percent sequences are not
recombined; no claim depends on URI header-parameter decoding. -/
def pyUnquote : List Char → List Char
  | [] => []
  | '%' :: a :: b :: rest =>
    match hexVal a, hexVal b with
    | some x, some y => Char.ofNat (16 * x + y) :: pyUnquote rest
    | _, _ => '%' :: pyUnquote (a :: b :: rest)
  | c :: rest => c :: pyUnquote rest

-- ======================= message.py : SIPURI =======================

/-- A URI parameter value: either a string or the bare-flag `True`. -/
inductive URIParamVal
  | str (v : List Char)
  | flag
deriving DecidableEq, Repr

/-- `SIPURI` (message.py): the attributes set by `__init__`/`_parse`. -/
structure SIPURIM where
  raw : List Char
  scheme : List Char
  user : Option (List Char)
  password : Option (List Char)
  host : List Char
  port : Option Int
  parameters : List (List Char × URIParamVal)
  headers : List (List Char × List Char)
deriving DecidableEq, Repr

/-- Parse the `?name=value&...` section of a URI (`SIPURI._parse`). -/
def parseURIHeaders (headersPart : List Char) : List (List Char × List Char) :=
  (splitAll '&' headersPart).foldl
    (fun d hdr =>
      match splitFirst '=' hdr with
      | some (k, v) => dictSet d k (pyUnquote v)
      | none => d)
    []

/-- Parse the `;params` section of a URI (`SIPURI._parse`). -/
def parseURIParams (paramsPart : List Char) : List (List Char × URIParamVal) :=
  (splitAll ';' paramsPart).foldl
    (fun d param =>
      match splitFirst '=' param with
      | some (k, v) => dictSet d k (URIParamVal.str v)
      | none => dictSet d param URIParamVal.flag)
    []

/-- `SIPURI.__init__` plus `_parse`: never raises; on an unparsable port the
whole `host:port` text stays in `host` and `port` stays unset. -/
def parseSIPURI (uri : List Char) : SIPURIM :=
  let raw := pyStrip uri
  let base : SIPURIM :=
    { raw := raw, scheme := chars "sip", user := none, password := none,
      host := [], port := none, parameters := [], headers := [] }
  if raw = [] then base
  else
    match splitFirst ':' raw with
    | none => base
    | some (schemePart, rest0) =>
      let base := { base with scheme := pyLower schemePart }
      let (rest1, base) :=
        match splitFirst '?' rest0 with
        | some (r, headersPart) => (r, { base with headers := parseURIHeaders headersPart })
        | none => (rest0, base)
      let (rest2, base) :=
        match splitFirst ';' rest1 with
        | some (r, paramsPart) => (r, { base with parameters := parseURIParams paramsPart })
        | none => (rest1, base)
      let (hostPart, base) :=
        match rsplitFirst '@' rest2 with
        | some (userPart, hp) =>
          (hp,
            match splitFirst ':' userPart with
            | some (u, pw) => { base with user := some u, password := some pw }
            | none => { base with user := some userPart })
        | none => (rest2, base)
      if containsChar ':' hostPart ∧ ¬ pyStartsWith hostPart (chars "[") then
        match rsplitFirst ':' hostPart with
        | some (h, portStr) =>
          match pyInt portStr with
          | some p => { base with host := h, port := some p }
          | none => { base with host := hostPart }
        | none => { base with host := hostPart }
      else { base with host := hostPart }

-- ======================= message.py : headers, body, message =======================

/-- `SIPMethod` enum. -/
inductive SIPMethodM
  | INVITE | ACK | OPTIONS | BYE | CANCEL | REGISTER | INFO | MESSAGE
deriving DecidableEq, Repr

/-- `SIPMethod.value`. -/
def methodStr : SIPMethodM → List Char
  | .INVITE => chars "INVITE"
  | .ACK => chars "ACK"
  | .OPTIONS => chars "OPTIONS"
  | .BYE => chars "BYE"
  | .CANCEL => chars "CANCEL"
  | .REGISTER => chars "REGISTER"
  | .INFO => chars "INFO"
  | .MESSAGE => chars "MESSAGE"

/-- `SIPMethod(s)` enum construction; `none` models the raised `ValueError`. -/
def methodOfString (s : List Char) : Option SIPMethodM :=
  if s = chars "INVITE" then some .INVITE
  else if s = chars "ACK" then some .ACK
  else if s = chars "OPTIONS" then some .OPTIONS
  else if s = chars "BYE" then some .BYE
  else if s = chars "CANCEL" then some .CANCEL
  else if s = chars "REGISTER" then some .REGISTER
  else if s = chars "INFO" then some .INFO
  else if s = chars "MESSAGE" then some .MESSAGE
  else none

/-- `SIPHeader`: name and value, both stripped by `__init__`. -/
structure SIPHeaderM where
  name : List Char
  value : List Char
deriving DecidableEq, Repr

/-- `SIPHeader.__init__` strips both arguments. -/
def mkHeader (name value : List Char) : SIPHeaderM :=
  ⟨pyStrip name, pyStrip value⟩

/-- `SIPHeader.encode`. -/
def encodeHeader (h : SIPHeaderM) : List Char :=
  h.name ++ chars ": " ++ h.value

/-- `SIPBody` for string content (the `sdp` attribute is `None` on every path
the embedded code takes: `parse` always builds bodies from strings). -/
structure SIPBodyM where
  content : List Char
  contentType : List Char
deriving DecidableEq, Repr

/-- `SIPBody.content_length`: UTF-8 byte length of the content. -/
def contentLength (b : SIPBodyM) : Nat :=
  (b.content.map Char.utf8Size).sum

/-- `SIPMessage`: request attributes, response attributes, headers, body. -/
structure SIPMessageM where
  method : Option SIPMethodM
  uri : Option SIPURIM
  statusCode : Option Int
  reason : Option (List Char)
  headers : List SIPHeaderM
  body : Option SIPBodyM
deriving DecidableEq, Repr

/-- The freshly-constructed `SIPMessage()`. -/
def emptyMessage : SIPMessageM :=
  { method := none, uri := none, statusCode := none, reason := none,
    headers := [], body := none }

/-- `SIPMessage.get_header`: first header whose lowercased name matches. -/
def getHeader (m : SIPMessageM) (name : List Char) : Option (List Char) :=
  (m.headers.find? (fun h => pyLower h.name = pyLower name)).map (·.value)

/-- `SIPMessage.add_header`. -/
def addHeader (m : SIPMessageM) (name value : List Char) : SIPMessageM :=
  { m with headers := m.headers ++ [mkHeader name value] }

/-- `SIPMessage.set_header`: overwrite the first matching header's value in
place (no re-stripping), else append a new header. -/
def setHeader (m : SIPMessageM) (name value : List Char) : SIPMessageM :=
  { m with headers := go m.headers }
where
  go : List SIPHeaderM → List SIPHeaderM
    | [] => [mkHeader name value]
    | h :: rest =>
      if pyLower h.name = pyLower name then { h with value := value } :: rest
      else h :: go rest

/-- Python `str(x)` where `x` may be `None`. -/
def optStr : Option (List Char) → List Char
  | some s => s
  | none => chars "None"

/-- `str(self.uri)` in the encoder (`"None"` when the field is unset). -/
def uriStrOf (m : SIPMessageM) : List Char :=
  match m.uri with
  | some u => u.raw
  | none => chars "None"

/-- `f"{self.status_code}"` in the encoder. -/
def statusStrOf (m : SIPMessageM) : List Char :=
  match m.statusCode with
  | some sc => intRepr sc
  | none => chars "None"

/-- The request/status line `SIPMessage.encode` emits. -/
def encodeStartLine (m : SIPMessageM) : List Char :=
  match m.method with
  | some md => methodStr md ++ ' ' :: uriStrOf m ++ ' ' :: chars "SIP/2.0"
  | none => chars "SIP/2.0" ++ ' ' :: statusStrOf m ++ ' ' :: optStr m.reason

/-- `SIPMessage.encode` (the model stays at the character level; `encode`'s
final UTF-8 step is a bijection). -/
def encodeSIP (m : SIPMessageM) : List Char :=
  let start := encodeStartLine m
  let headerLines := m.headers.map encodeHeader
  let clLines :=
    match m.body with
    | some b =>
      if getHeader m (chars "content-length") = none then
        [chars "Content-Length: " ++ natRepr (contentLength b)]
      else []
    | none => []
  let bodyLines :=
    match m.body with
    | some b => [b.content]
    | none => []
  joinCRLF ([start] ++ headerLines ++ clLines ++ [[]] ++ bodyLines)

/-- The header-collection loop of `SIPMessage.parse`: collect `name: value`
lines until the first blank line; lines without a colon are skipped.  Returns
the headers and, when a blank line was found, the lines after it. -/
def headerScan : List (List Char) → List SIPHeaderM × Option (List (List Char))
  | [] => ([], none)
  | line :: rest =>
    if pyStrip line = [] then ([], some rest)
    else
      let (hs, r) := headerScan rest
      match splitFirst ':' line with
      | some (n, v) => (mkHeader n v :: hs, r)
      | none => (hs, r)

/-- The first-line dispatch of `SIPMessage.parse` (`first` is the stripped
first line). -/
def parseStartLine (first : List Char) : Option SIPMessageM :=
  if pyStartsWith first (chars "SIP/") then
    match splitSpaceMax2 first with
    | _ :: p1 :: prest =>
      match pyInt p1 with
      | none => none
      | some sc =>
        some { emptyMessage with
               statusCode := some sc,
               reason := some (match prest with | p2 :: _ => p2 | [] => []) }
    | _ => some emptyMessage
  else
    match splitSpaceMax2 first with
    | p0 :: p1 :: _ =>
      match methodOfString p0 with
      | none => none
      | some md =>
        some { emptyMessage with method := some md, uri := some (parseSIPURI p1) }
    | _ => some emptyMessage

/-- `SIPMessage.parse`; `none` models a raised exception (unknown method,
unparsable status code). -/
def parseSIP (message : List Char) : Option SIPMessageM :=
  match splitCRLF (pyStrip message) with
  | [] => none
  | firstLine :: rest =>
    match parseStartLine (pyStrip firstLine) with
    | none => none
    | some m0 =>
      let (hs, bodyRest) := headerScan rest
      let m1 := { m0 with headers := hs }
      match bodyRest with
      | none => some m1
      | some bls =>
        if bls = [] then some m1
        else
          let content := joinCRLF bls
          if pyStrip content = [] then some m1
          else
            let ctype :=
              match hs.find? (fun h => pyLower h.name = chars "content-type") with
              | some h => h.value
              | none => chars "text/plain"
            some { m1 with body := some ⟨content, ctype⟩ }

-- ======================= sdp.py : legacy SDPSession (used by SIPBody.validate) =======================

/-- `SDPAttribute` (sdp.py). -/
structure SDPAttributeOld where
  name : List Char
  value : Option (List Char)
deriving DecidableEq, Repr

/-- `SDPMedia` (sdp.py), the fields `SDPSession.parse` touches. -/
structure SDPMediaOld where
  mediaType : List Char
  port : Int
  protocol : List Char
  formats : List (List Char)
  attributes : List SDPAttributeOld
deriving DecidableEq, Repr

/-- `SDPSession` (sdp.py), the fields `parse`/`validate` touch.  The source's
clock-derived `session_id`/`session_version` defaults are modelled as `[]`;
no claim and no validation step reads them. -/
structure SDPSessionOld where
  version : Int
  originUsername : List Char
  sessionId : List Char
  sessionVersion : List Char
  originAddress : List Char
  sessionName : List Char
  connectionAddress : List Char
  connectionTTL : Option Int
  timingStart : Int
  timingStop : Int
  attributes : List SDPAttributeOld
  media : List SDPMediaOld
deriving DecidableEq, Repr

/-- `SDPSession()` dataclass defaults. -/
def emptySDPSessionOld : SDPSessionOld :=
  { version := 0, originUsername := chars "-", sessionId := [], sessionVersion := [],
    originAddress := chars "127.0.0.1", sessionName := chars "SIP Session",
    connectionAddress := chars "127.0.0.1", connectionTTL := none,
    timingStart := 0, timingStop := 0, attributes := [], media := [] }

/-- `SDPMediaType(s)` enum construction. -/
def validMediaType (s : List Char) : Bool :=
  s = chars "audio" ∨ s = chars "video" ∨ s = chars "application" ∨
  s = chars "data" ∨ s = chars "control"

/-- Append an attribute to the current (= last-created) media, mirroring the
in-place mutation of `current_media` in `SDPSession.parse`. -/
def attachToLastMedia (ms : List SDPMediaOld) (a : SDPAttributeOld) : List SDPMediaOld :=
  match ms with
  | [] => []
  | [m] => [{ m with attributes := m.attributes ++ [a] }]
  | m :: rest => m :: attachToLastMedia rest a

/-- One line of `SDPSession.parse`; `none` models a raised exception
(`int()` failure, unknown media type, or a `split("/")` that does not yield
exactly two parts). -/
def sdpOldLine (s : SDPSessionOld) (ln : List Char) : Option SDPSessionOld :=
  let line := pyStrip ln
  if line = [] ∨ ¬ containsChar '=' line then some s
  else
    match splitFirst '=' line with
    | none => some s
    | some (lt, lv) =>
      if lt = chars "v" then
        (pyInt lv).map (fun n => { s with version := n })
      else if lt = chars "o" then
        match splitWS lv with
        | p0 :: p1 :: p2 :: _ :: _ :: p5 :: _ =>
          some { s with originUsername := p0, sessionId := p1,
                        sessionVersion := p2, originAddress := p5 }
        | _ => some s
      else if lt = chars "s" then
        some { s with sessionName := lv }
      else if lt = chars "c" then
        if containsSub (chars "IN IP4") lv then
          match pySplitSubIdx1 (chars "IN IP4") lv with
          | none => some s
          | some seg =>
            let addrPart := pyStrip seg
            if containsChar '/' addrPart then
              match splitAll '/' addrPart with
              | [addr, ttlStr] =>
                (pyInt ttlStr).map
                  (fun ttl => { s with connectionAddress := addr, connectionTTL := some ttl })
              | _ => none
            else some { s with connectionAddress := addrPart }
        else some s
      else if lt = chars "t" then
        match splitWS lv with
        | p0 :: p1 :: _ =>
          match pyInt p0, pyInt p1 with
          | some a, some b => some { s with timingStart := a, timingStop := b }
          | _, _ => none
        | _ => some s
      else if lt = chars "m" then
        match splitWS lv with
        | p0 :: p1 :: p2 :: prest =>
          if prest = [] then some s
          else if validMediaType p0 then
            (pyInt p1).map (fun port =>
              { s with media := s.media ++
                  [{ mediaType := p0, port := port, protocol := p2,
                     formats := prest, attributes := [] }] })
          else none
        | _ => some s
      else if lt = chars "a" then
        let attr : SDPAttributeOld :=
          match splitFirst ':' lv with
          | some (n, v) => ⟨n, some v⟩
          | none => ⟨lv, none⟩
        if s.media = [] then some { s with attributes := s.attributes ++ [attr] }
        else some { s with media := attachToLastMedia s.media attr }
      else some s

/-- `SDPSession.parse`; `none` models a raised exception. -/
def parseSDPSessionOld (content : List Char) : Option SDPSessionOld :=
  (splitAll '\n' (pyStrip content)).foldlM sdpOldLine emptySDPSessionOld

/-- `SDPSession.validate` (first component of the returned pair). -/
def sdpSessionValidate (s : SDPSessionOld) : Bool :=
  s.sessionName ≠ [] ∧ s.originAddress ≠ [] ∧ s.connectionAddress ≠ [] ∧
  s.media.all (fun m => m.formats ≠ [] ∧ 0 ≤ m.port ∧ m.port ≤ 65535)

-- ======================= message.py : validate =======================

/-- The token alphabet of the header-name regex in `SIPHeader.validate`. -/
def headerTokenChar (c : Char) : Bool :=
  ('A' ≤ c ∧ c ≤ 'Z') ∨ ('a' ≤ c ∧ c ≤ 'z') ∨ ('0' ≤ c ∧ c ≤ '9') ∨
  (chars "!#$%&'*+-.^_`|~").contains c

/-- The control characters rejected in header values by `SIPHeader.validate`. -/
def ctlChar (c : Char) : Bool :=
  c.toNat ≤ 0x08 ∨ (0x0A ≤ c.toNat ∧ c.toNat ≤ 0x1F) ∨ c.toNat = 0x7F

/-- `SIPHeader.validate`. -/
def headerValidate (h : SIPHeaderM) : Bool :=
  h.name ≠ [] ∧ h.value ≠ [] ∧ h.name.all headerTokenChar ∧ ¬ h.value.any ctlChar

/-- The `re.match(r"^[a-zA-Z]+/[a-zA-Z0-9\-\+\.]+", ct)` check in
`SIPBody.validate` (an unanchored-tail prefix match). -/
def contentTypeOk (ct : List Char) : Bool :=
  let a := ct.takeWhile (fun c => ('A' ≤ c ∧ c ≤ 'Z') ∨ ('a' ≤ c ∧ c ≤ 'z'))
  decide (a ≠ []) &&
    (match ct.drop a.length with
     | '/' :: r =>
       decide ((r.takeWhile (fun c =>
         ('A' ≤ c ∧ c ≤ 'Z') ∨ ('a' ≤ c ∧ c ≤ 'z') ∨ ('0' ≤ c ∧ c ≤ '9') ∨
         c = '-' ∨ c = '+' ∨ c = '.')) ≠ [])
     | _ => false)

/-- `SIPBody.validate` (for string-backed bodies, whose `sdp` attribute is
`None`): the content type must look like `type/subtype`, and an SDP body whose
text parses as SDP must satisfy the SDP validation. -/
def bodyValidate (b : SIPBodyM) : Bool :=
  contentTypeOk b.contentType ∧
    (if b.contentType = chars "application/sdp" then
      match parseSDPSessionOld b.content with
      | some s => sdpSessionValidate s
      | none => true
    else true)

/-- `SIPMessage.REQUIRED_HEADERS`. -/
def requiredHeaders : List (List Char) :=
  [chars "via", chars "from", chars "to", chars "call-id", chars "cseq",
   chars "max-forwards"]

/-- `SIPMessage.validate` returning whether the error list is empty. -/
def validateSIP (m : SIPMessageM) : Bool :=
  (m.method.isSome || m.statusCode.isSome) &&
  (match m.method with
   | some _ =>
     requiredHeaders.all (fun r => (m.headers.map (fun h => pyLower h.name)).contains r)
   | none => true) &&
  m.headers.all headerValidate &&
  (match m.body with
   | some b => bodyValidate b
   | none => true) &&
  (match m.method, m.uri with
   | some _, some u => decide (u.host ≠ [])
   | _, _ => true)

-- ======================= fsm.py : states, timers, events =======================

/-- `TxState` (fsm.py). -/
inductive TxStateM
  | INITIAL | TRYING | PROCEEDING | COMPLETED | ACCEPTED | CONFIRMED | TERMINATED
deriving DecidableEq, Repr

/-- `DialogState` (fsm.py). -/
inductive DialogStateM
  | INITIAL | EARLY | CONFIRMED | TERMINATED
deriving DecidableEq, Repr

/-- `TxKind` (fsm.py). -/
inductive TxKindM
  | INVITE_CLIENT | INVITE_SERVER | NON_INVITE_CLIENT | NON_INVITE_SERVER
deriving DecidableEq, Repr

/-- `TimerType` (fsm.py). -/
inductive TimerTypeM
  | E | F | K | A | B | D | G | H | I | J | L | M
deriving DecidableEq, Repr

/-- `SIPTimers` with durations in milliseconds (the Python floats 0.5/4.0/5.0
seconds are exact in this unit). -/
structure SIPTimersM where
  T1 : Nat := 500
  T2 : Nat := 4000
  T4 : Nat := 5000
deriving DecidableEq, Repr

/-- The derived timer durations of `SIPTimers` (milliseconds). -/
def timerDuration (t : SIPTimersM) : TimerTypeM → Nat
  | .A => t.T1
  | .B => 64 * t.T1
  | .D => 32000
  | .E => t.T1
  | .F => 64 * t.T1
  | .G => t.T1
  | .H => 64 * t.T1
  | .I => t.T4
  | .J => 64 * t.T1
  | .K => t.T4
  | .L => 64 * t.T1
  | .M => 64 * t.T1

/-- The externally observable actions of a transaction: callbacks into the
transaction-callback aggregate, transport sends, and timer operations, in the
order the Python code performs them.  `cleanupAllTimers`/`cbTerminated` stand
for the cleanup task `_transition_to` schedules on entering `TERMINATED`. -/
inductive TxEvent
  | cbProvisional
  | cbFinal
  | cbRequestReceived
  | cbTimeout (t : TimerTypeM)
  | cbTransportError
  | cbTerminated
  | sendReq
  | sendResp
  | startTimer (t : TimerTypeM) (ms : Nat)
  | cancelTimer (t : TimerTypeM)
  | cleanupAllTimers
deriving DecidableEq, Repr

/-- The per-transaction state `SIPTransaction` carries that the state machine
reads: kind, FSM state, retransmission counter, and whether a request/response
is stored. -/
structure TxRec where
  kind : TxKindM
  state : TxStateM
  retransCount : Nat
  hasRequest : Bool
  hasResponse : Bool
deriving DecidableEq, Repr

/-- `SIPTransaction._transition_to`: entering `TERMINATED` schedules the
cleanup task (cancel every active timer, then `on_terminated`). -/
def transitionTo (tx : TxRec) (s : TxStateM) : TxRec × List TxEvent :=
  ({ tx with state := s },
   if s = TxStateM.TERMINATED then [.cleanupAllTimers, .cbTerminated] else [])

/-- `SIPTransaction._handle_retransmission`. -/
def handleRetransmission (timers : SIPTimersM) (tx : TxRec) (t : TimerTypeM) :
    TxRec × List TxEvent :=
  if tx.retransCount ≥ 7 then
    -- `self._max_retransmissions = 7`
    transitionTo tx .TERMINATED
  else
    let tx := { tx with retransCount := tx.retransCount + 1 }
    let sendEvts : List TxEvent :=
      if (tx.kind = .INVITE_CLIENT ∨ tx.kind = .NON_INVITE_CLIENT) ∧ tx.hasRequest then
        [.sendReq]
      else if (tx.kind = .INVITE_SERVER ∨ tx.kind = .NON_INVITE_SERVER) ∧ tx.hasResponse then
        [.sendResp]
      else []
    let nextInterval := min timers.T2 (2 ^ tx.retransCount * timers.T1)
    (tx, sendEvts ++ [.startTimer t nextInterval])

/-- `SIPTransaction._on_timer_fired`: the `on_timeout` callback fires for every
timer type; Timers B and F terminate, the cleanup timers D/I/J/K terminate,
and A/E/G retransmit.  No branch handles Timer H (nor L or M). -/
def onTimerFired (timers : SIPTimersM) (tx : TxRec) (t : TimerTypeM) :
    TxRec × List TxEvent :=
  let pre : List TxEvent := [.cbTimeout t]
  if t = .B ∨ t = .F then
    let (tx', evts) := transitionTo tx .TERMINATED
    (tx', pre ++ evts)
  else if t = .D ∨ t = .I ∨ t = .J ∨ t = .K then
    let (tx', evts) := transitionTo tx .TERMINATED
    (tx', pre ++ evts)
  else if t = .A ∨ t = .E ∨ t = .G then
    let (tx', evts) := handleRetransmission timers tx t
    (tx', pre ++ evts)
  else
    (tx, pre)

-- ======================= fsm.py : non-INVITE client FSM =======================

/-- `NonInviteClientTransaction.process_message` on a response with the given
status code (`none` models `status_code is None`). -/
def nonInviteClientProcess (tx : TxRec) (status : Option Int) :
    TxRec × List TxEvent :=
  match status with
  | none => (tx, [])
  | some sc =>
    if tx.state = .TRYING then
      if 100 ≤ sc ∧ sc ≤ 199 then
        let (tx', evts) := transitionTo tx .PROCEEDING
        (tx', evts ++ [.cancelTimer .E, .cbProvisional])
      else if sc ≥ 200 then
        let (tx', evts) := transitionTo tx .TERMINATED
        (tx', evts ++ [.cancelTimer .E, .cancelTimer .F, .cbFinal])
      else (tx, [])
    else if tx.state = .PROCEEDING then
      if sc ≥ 200 then
        let (tx', evts) := transitionTo tx .TERMINATED
        (tx', evts ++ [.cbFinal])
      else (tx, [.cbProvisional])
    else (tx, [])

/-- `NonInviteClientTransaction.start`. -/
def nonInviteClientStart (timers : SIPTimersM) (tx : TxRec) : TxRec × List TxEvent :=
  let tx := { tx with hasRequest := true }
  let (tx', evts) := transitionTo tx .TRYING
  (tx', evts ++ [.sendReq, .startTimer .E (timerDuration timers .E),
                 .startTimer .F (timerDuration timers .F)])

-- ======================= fsm.py : INVITE server FSM (message processing) =======================

/-- `InviteServerTransaction.process_message` for an inbound request. -/
def inviteServerProcessRequest (timers : SIPTimersM) (tx : TxRec)
    (method : SIPMethodM) : TxRec × List TxEvent :=
  if method = .ACK then
    if tx.state = .ACCEPTED then
      let (tx', evts) := transitionTo tx .CONFIRMED
      (tx', evts ++ [.cancelTimer .L, .startTimer .I (timerDuration timers .I)])
    else if tx.state = .COMPLETED then
      let (tx', evts) := transitionTo tx .CONFIRMED
      (tx', evts ++ [.cancelTimer .G, .cancelTimer .H,
                     .startTimer .I (timerDuration timers .I)])
    else (tx, [])
  else if tx.state = .PROCEEDING then
    if tx.hasResponse then (tx, [.sendResp]) else (tx, [])
  else (tx, [])

/-- `NonInviteServerTransaction.process_message` for an inbound request. -/
def nonInviteServerProcessRequest (tx : TxRec) : TxRec × List TxEvent :=
  if tx.state = .COMPLETED ∧ tx.hasResponse then (tx, [.sendResp]) else (tx, [])

/-- A client transaction's `process_message` applied to a request: the request
has no status code, so the method returns immediately. -/
def clientProcessRequest (tx : TxRec) : TxRec × List TxEvent := (tx, [])

/-- Dynamic dispatch of `tx.process_message(request)` by transaction class. -/
def txProcessRequest (timers : SIPTimersM) (tx : TxRec) (method : SIPMethodM) :
    TxRec × List TxEvent :=
  match tx.kind with
  | .INVITE_SERVER => inviteServerProcessRequest timers tx method
  | .NON_INVITE_SERVER => nonInviteServerProcessRequest tx
  | .INVITE_CLIENT => clientProcessRequest tx
  | .NON_INVITE_CLIENT => clientProcessRequest tx

/-- `InviteServerTransaction.start` / `NonInviteServerTransaction.start`. -/
def serverTxStart (tx : TxRec) : TxRec × List TxEvent :=
  let tx := { tx with hasRequest := true }
  let (tx', evts) :=
    transitionTo tx (if tx.kind = .INVITE_SERVER then .PROCEEDING else .TRYING)
  (tx', evts ++ [.cbRequestReceived])

-- ======================= fsm.py : TransactionManager =======================

/-- `re.search(key + "([^;]+)", s)`: first position where `key` occurs followed
by at least one non-semicolon character; the greedy capture up to the next
semicolon.  Used for `branch=` and `tag=` extraction. -/
def searchParam (key : List Char) : List Char → Option (List Char)
  | [] => none
  | c :: rest =>
    if key.isPrefixOf (c :: rest) then
      let v := ((c :: rest).drop key.length).takeWhile (· ≠ ';')
      if v = [] then searchParam key rest else some v
    else searchParam key rest

/-- `TransactionManager.generate_transaction_id`: the Via branch parameter when
present, else a fresh random id (supplied here as `fresh`). -/
def generateTransactionId (via : Option (List Char)) (fresh : List Char) : List Char :=
  match via with
  | some v =>
    match searchParam (chars "branch=") v with
    | some b => b
    | none => fresh
  | none => fresh

/-- What `TransactionManager.process_request` did with an inbound request. -/
inductive ManagerAction
  | ackRouted (txId : List Char)
  | retransmitRouted (txId : List Char)
  | createdServer (txId : List Char) (kind : TxKindM)
deriving DecidableEq, Repr

/-- `TransactionManager.create_server_transaction`. -/
def createServerTransaction (timers : SIPTimersM)
    (tbl : List (List Char × TxRec)) (method : SIPMethodM)
    (via : Option (List Char)) (fresh : List Char) :
    List (List Char × TxRec) × ManagerAction × List TxEvent :=
  let txId := generateTransactionId via fresh
  match dictGet tbl txId with
  | some tx =>
    let (tx', evts) := txProcessRequest timers tx method
    (dictSet tbl txId tx', .retransmitRouted txId, evts)
  | none =>
    let kind : TxKindM :=
      if method = .INVITE then .INVITE_SERVER else .NON_INVITE_SERVER
    let tx : TxRec :=
      { kind := kind, state := .INITIAL, retransCount := 0,
        hasRequest := false, hasResponse := false }
    let (tx', evts) := serverTxStart tx
    (tbl ++ [(txId, tx')], .createdServer txId kind, evts)

/-- `TransactionManager.process_request`: an ACK is routed to the transaction
with the same branch when one exists; otherwise control falls through to
`create_server_transaction`. -/
def processRequest (timers : SIPTimersM) (tbl : List (List Char × TxRec))
    (method : SIPMethodM) (via : Option (List Char)) (fresh : List Char) :
    List (List Char × TxRec) × ManagerAction × List TxEvent :=
  if method = .ACK then
    let txId := generateTransactionId via fresh
    match dictGet tbl txId with
    | some tx =>
      let (tx', evts) := txProcessRequest timers tx method
      (dictSet tbl txId tx', .ackRouted txId, evts)
    | none => createServerTransaction timers tbl method via fresh
  else createServerTransaction timers tbl method via fresh

-- ======================= fsm.py : dialogs =======================

/-- `SIPDialog` (fsm.py). -/
structure SIPDialogM where
  dialogId : List Char
  state : DialogStateM
  localUri : List Char
  remoteUri : List Char
  localTag : List Char
  remoteTag : Option (List Char)
  callId : List Char
  localCseq : Int
  remoteCseq : Option Int
  routeSet : List (List Char)
  secure : Bool
deriving DecidableEq, Repr

/-- Python truthiness of `dialog.remote_tag` (`None` and `""` are falsy). -/
def remoteTagFalsy (d : SIPDialogM) : Bool :=
  d.remoteTag = none ∨ d.remoteTag = some []

/-- `DialogManager.update_dialog_from_response` applied to a found dialog
(`none` models `status_code is None`, where the method returns `None`).
The dialog-callback tasks it spawns are not modelled. -/
def updateDialogFromResponse (d : SIPDialogM) (response : SIPMessageM) :
    Option SIPDialogM :=
  match response.statusCode with
  | none => none
  | some sc =>
    let toHeader := (getHeader response (chars "to")).getD []
    if 100 ≤ sc ∧ sc ≤ 199 then
      match searchParam (chars "tag=") toHeader with
      | some t =>
        if remoteTagFalsy d then
          some { d with remoteTag := some t, state := .EARLY }
        else some d
      | none => some d
    else if 200 ≤ sc ∧ sc ≤ 299 then
      match searchParam (chars "tag=") toHeader with
      | some t => some { d with remoteTag := some t, state := .CONFIRMED }
      | none => some d
    else if sc ≥ 300 then
      some { d with state := .TERMINATED }
    else some d

-- ======================= auth.py : SIPDigestAuthentication =======================

/-- Python `\w` (ASCII range; the auth parameter keys are ASCII). -/
def isWordChar (c : Char) : Bool :=
  ('A' ≤ c ∧ c ≤ 'Z') ∨ ('a' ≤ c ∧ c ≤ 'z') ∨ ('0' ≤ c ∧ c ≤ '9') ∨ c = '_'

/-- One attempted match of `(\w+)=(?:"([^"]+)"|([^,\s]+))` at the head of the
string: key, value, and the remainder after the match. -/
def authParamMatchAt (s : List Char) : Option (List Char × List Char × List Char) :=
  let w := s.takeWhile isWordChar
  if w = [] then none
  else
    match s.drop w.length with
    | '=' :: rest =>
      (match rest with
       | '"' :: q =>
         let inner := q.takeWhile (· ≠ '"')
         if inner ≠ [] ∧ q.drop inner.length ≠ [] then
           some (w, inner, (q.drop inner.length).drop 1)
         else
           -- quoted alternative failed; fall back to the token alternative,
           -- which starts at the quote character
           let tok := rest.takeWhile (fun c => ¬ (c = ',' ∨ isPyWS c))
           if tok = [] then none else some (w, tok, rest.drop tok.length)
       | _ =>
         let tok := rest.takeWhile (fun c => ¬ (c = ',' ∨ isPyWS c))
         if tok = [] then none else some (w, tok, rest.drop tok.length))
    | _ => none

/-- `re.finditer` scan for the pattern above: leftmost non-overlapping matches.
Recursion is fuelled by the input length; every step consumes at least one
character (a successful match consumes its nonempty key and the `=`), so the
fuel never runs out on the initial call. -/
def authParamScanFuel : Nat → List Char → List (List Char × List Char)
  | 0, _ => []
  | _ + 1, [] => []
  | fuel + 1, c :: rest =>
    match authParamMatchAt (c :: rest) with
    | some (k, v, remaining) => (k, v) :: authParamScanFuel fuel remaining
    | none => authParamScanFuel fuel rest

/-- The `re.finditer` loop of `parse_www_authenticate`. -/
def authParamScan (s : List Char) : List (List Char × List Char) :=
  authParamScanFuel s.length s

/-- `SIPDigestAuthentication.parse_www_authenticate`. -/
def parseWWWAuthenticate (headerValue : List Char) : List (List Char × List Char) :=
  let hv :=
    if pyStartsWith headerValue (chars "Digest ") then headerValue.drop 7
    else headerValue
  (authParamScan hv).foldl (fun d kv => dictSet d (pyLower kv.1) kv.2) []

/-- One lowercase hexadecimal digit. -/
def hexDigitChar (k : Nat) : Char :=
  if k % 16 < 10 then Char.ofNat (48 + k % 16) else Char.ofNat (87 + k % 16)

/-- Lowercase hexadecimal digits, fuelled so the kernel can evaluate. -/
def natHexFuel : Nat → Nat → List Char
  | 0, _ => []
  | fuel + 1, n =>
    if n < 16 then [hexDigitChar n]
    else natHexFuel fuel (n / 16) ++ [hexDigitChar (n % 16)]

/-- Lowercase hexadecimal digits of a natural number. -/
def natHex (n : Nat) : List Char := natHexFuel (n + 1) n

/-- Python `f"{nc:08x}"` for the nonnegative nonce counts the code produces. -/
def ncHex (nc : Int) : List Char :=
  let h := natHex nc.toNat
  List.replicate (8 - h.length) '0' ++ h

/-- `SIPDigestAuthentication._hash_function`.  The MD5 and SHA-256 primitives
live in `hashlib`, outside the embedded code; they are passed in as opaque
string functions.  `none` models the `ValueError` for unsupported algorithms. -/
def hashFunction (md5 sha256 : List Char → List Char) (data algorithm : List Char) :
    Option (List Char) :=
  if pyStartsWith algorithm (chars "MD5") then some (md5 data)
  else if pyStartsWith algorithm (chars "SHA-256") then some (sha256 data)
  else none

/-- `SIPDigestAuthentication._calculate_ha1`. -/
def calculateHA1 (md5 sha256 : List Char → List Char)
    (username realm password nonce cnonce algorithm : List Char) :
    Option (List Char) :=
  match hashFunction md5 sha256 (username ++ ':' :: realm ++ ':' :: password) algorithm with
  | none => none
  | some ha1 =>
    if pyEndsWith algorithm (chars "-sess") then
      hashFunction md5 sha256 (ha1 ++ ':' :: nonce ++ ':' :: cnonce) algorithm
    else some ha1

/-- `SIPDigestAuthentication._calculate_ha2`. -/
def calculateHA2 (md5 sha256 : List Char → List Char)
    (method uri : List Char) (qop : Option (List Char)) (body : Option (List Char))
    (algorithm : List Char) : Option (List Char) :=
  if qop = some (chars "auth-int") ∧ body.isSome then
    match body with
    | some b =>
      match hashFunction md5 sha256 b algorithm with
      | none => none
      | some bodyHash =>
        hashFunction md5 sha256 (method ++ ':' :: uri ++ ':' :: bodyHash) algorithm
    | none => none
  else hashFunction md5 sha256 (method ++ ':' :: uri) algorithm

/-- `SIPDigestAuthentication._calculate_response`. -/
def calculateResponse (md5 sha256 : List Char → List Char)
    (username realm password method uri nonce : List Char) (nc : Int)
    (cnonce : List Char) (qop : Option (List Char)) (algorithm : List Char)
    (body : Option (List Char)) : Option (List Char) :=
  match calculateHA1 md5 sha256 username realm password nonce cnonce algorithm with
  | none => none
  | some ha1 =>
    match calculateHA2 md5 sha256 method uri qop body algorithm with
    | none => none
    | some ha2 =>
      let responseData :=
        if qop = some (chars "auth") ∨ qop = some (chars "auth-int") then
          ha1 ++ ':' :: nonce ++ ':' :: ncHex nc ++ ':' :: cnonce ++
            ':' :: (qop.getD []) ++ ':' :: ha2
        else ha1 ++ ':' :: nonce ++ ':' :: ha2
      hashFunction md5 sha256 responseData algorithm

/-- The credential store: `realm -> (username, password)`. -/
abbrev CredStore := List (List Char × (List Char × List Char))

/-- The per-nonce counter store: `nonce -> count`. -/
abbrev NonceCounts := List (List Char × Int)

/-- `SIPDigestAuthentication._get_nonce_count`: initialise to 0 when absent,
then increment and return. -/
def getNonceCount (ncs : NonceCounts) (nonce : List Char) : Int × NonceCounts :=
  let cur := (dictGet ncs nonce).getD 0
  (cur + 1, dictSet ncs nonce (cur + 1))

/-- Python truthiness for `Optional[str]`. -/
def optTruthy (o : Option (List Char)) : Bool :=
  match o with
  | some s => s ≠ []
  | none => false

/-- `SIPDigestAuthentication.generate_authorization_header`.  The random
`cnonce` is supplied by the caller (`_generate_cnonce` draws from
`random`/`time`).  `none` models the raised `ValueError` when the realm has
no credentials (or the algorithm is unsupported). -/
def generateAuthorizationHeader (md5 sha256 : List Char → List Char)
    (creds : CredStore) (ncs : NonceCounts) (method uri : List Char)
    (authParams : List (List Char × List Char)) (body : Option (List Char))
    (cnonce : List Char) : Option (List Char × NonceCounts) :=
  let realm := (dictGet authParams (chars "realm")).getD []
  let nonce := (dictGet authParams (chars "nonce")).getD []
  let opaqueParam := dictGet authParams (chars "opaque")
  let algorithm := pyUpper ((dictGet authParams (chars "algorithm")).getD (chars "MD5"))
  let qop := dictGet authParams (chars "qop")
  match dictGet creds realm with
  | none => none
  | some (username, password) =>
    let (nc, ncs') := getNonceCount ncs nonce
    match calculateResponse md5 sha256 username realm password method uri nonce
        nc cnonce qop algorithm body with
    | none => none
    | some response =>
      let header :=
        chars "Digest username=\"" ++ username ++ chars "\", realm=\"" ++ realm ++
        chars "\", nonce=\"" ++ nonce ++ chars "\", uri=\"" ++ uri ++
        chars "\", response=\"" ++ response ++ chars "\""
      let header := if algorithm ≠ [] then header ++ chars ", algorithm=" ++ algorithm
        else header
      let header := if optTruthy opaqueParam then
          header ++ chars ", opaque=\"" ++ opaqueParam.getD [] ++ chars "\""
        else header
      let header := if optTruthy qop then
          header ++ chars ", qop=" ++ qop.getD [] ++ chars ", nc=" ++ ncHex nc ++
            chars ", cnonce=\"" ++ cnonce ++ chars "\""
        else header
      some (header, ncs')

/-- `SIPDigestAuthentication.handle_authentication_challenge`: returns the
`Authorization` header value, or `none` on any failure (non-challenge status,
missing/empty challenge header, missing method, or an exception inside
`generate_authorization_header`). -/
def handleAuthenticationChallenge (md5 sha256 : List Char → List Char)
    (creds : CredStore) (ncs : NonceCounts) (response originalRequest : SIPMessageM)
    (cnonce : List Char) : Option (List Char × NonceCounts) :=
  if response.statusCode ≠ some 401 ∧ response.statusCode ≠ some 407 then none
  else
    let authHeaderName :=
      if response.statusCode = some 401 then chars "www-authenticate"
      else chars "proxy-authenticate"
    match getHeader response authHeaderName with
    | none => none
    | some authHeader =>
      if authHeader = [] then none
      else
        let authParams := parseWWWAuthenticate authHeader
        match originalRequest.method with
        | none => none
        | some md =>
          let uri := match originalRequest.uri with
            | some u => u.raw
            | none => chars "None"
          let body := originalRequest.body.map (·.content)
          generateAuthorizationHeader md5 sha256 creds ncs (methodStr md) uri
            authParams body cnonce

/-- Replace every `branch=[^;]+` match by `branch=` followed by the new
branch (`re.sub`), scanning left to right without overlap.  Fuelled by the
input length; each step consumes at least one character. -/
def subBranchFuel (newBranch : List Char) : Nat → List Char → List Char
  | 0, s => s
  | _ + 1, [] => []
  | fuel + 1, c :: rest =>
    let key := chars "branch="
    if key.isPrefixOf (c :: rest) then
      let v := ((c :: rest).drop key.length).takeWhile (· ≠ ';')
      if v = [] then c :: subBranchFuel newBranch fuel rest
      else
        key ++ newBranch ++
          subBranchFuel newBranch fuel (((c :: rest).drop key.length).drop v.length)
    else c :: subBranchFuel newBranch fuel rest

/-- `re.sub(r"branch=[^;]+", "branch=" + newBranch, s)`. -/
def subBranch (newBranch s : List Char) : List Char :=
  subBranchFuel newBranch s.length s

/-- Result of `create_authenticated_request` from the caller's point of view:
Python returns the original object unchanged on failure (`origUnchanged`,
detected by identity in the UA), raises when the CSeq number is unparsable
(`raised`), and otherwise returns a fresh request. -/
inductive AuthReissue
  | origUnchanged
  | raised
  | newRequest (r : SIPMessageM) (ncs : NonceCounts)
deriving Repr

/-- `SIPDigestAuthentication.create_authenticated_request`.  `branchHex` stands
for the random 16-hex uuid slice. -/
def createAuthenticatedRequest (md5 sha256 : List Char → List Char)
    (creds : CredStore) (ncs : NonceCounts) (originalRequest authResponse : SIPMessageM)
    (cnonce branchHex : List Char) : AuthReissue :=
  match handleAuthenticationChallenge md5 sha256 creds ncs authResponse
      originalRequest cnonce with
  | none => .origUnchanged
  | some (authHeader, ncs') =>
    if authHeader = [] then .origUnchanged
    else
      match originalRequest.method with
      | none => .origUnchanged
      | some md =>
        -- SIPMessage.create_request(method, str(uri), body=original.body)
        let uriStr := match originalRequest.uri with
          | some u => u.raw
          | none => chars "None"
        let req : SIPMessageM :=
          { emptyMessage with method := some md, uri := some (parseSIPURI uriStr),
                              body := originalRequest.body }
        -- copy all headers except Via
        let req := originalRequest.headers.foldl
          (fun r h => if pyLower h.name = chars "via" then r
                      else addHeader r h.name h.value) req
        let newBranch := chars "z9hG4bK" ++ branchHex
        let req :=
          match getHeader originalRequest (chars "via") with
          | some viaValue => setHeader req (chars "Via") (subBranch newBranch viaValue)
          | none =>
            setHeader req (chars "Via")
              (chars "SIP/2.0/UDP 0.0.0.0;branch=" ++ newBranch)
        let headerName :=
          if authResponse.statusCode = some 401 then chars "Authorization"
          else chars "Proxy-Authorization"
        let req := setHeader req headerName authHeader
        match getHeader req (chars "cseq") with
        | none => .newRequest req ncs'
        | some cseqValue =>
          match splitWS cseqValue with
          | p0 :: p1 :: _ =>
            match pyInt p0 with
            | none => .raised
            | some n =>
              .newRequest
                (setHeader req (chars "CSeq") (intRepr (n + 1) ++ ' ' :: p1)) ncs'
          | _ => .newRequest req ncs'

/-- `SIPUserAgent._handle_authentication_challenge`, reduced to the request it
hands to `create_client_transaction`: `none` when no transaction/request is
found, when authentication failed (the identity check
`authenticated_request == tx.request`), or when the re-issue raised. -/
def uaHandleAuthChallenge (md5 sha256 : List Char → List Char)
    (creds : CredStore) (ncs : NonceCounts) (txRequest : Option SIPMessageM)
    (response : SIPMessageM) (cnonce branchHex : List Char) : Option SIPMessageM :=
  match txRequest with
  | none => none
  | some req =>
    match createAuthenticatedRequest md5 sha256 creds ncs req response
        cnonce branchHex with
    | .origUnchanged => none
    | .raised => none
    | .newRequest r _ => some r

-- ======================= sdp.py : RFC 3264 structures and SDPBuilder =======================

/-- `SDPCodec` (sdp.py). -/
structure SDPCodecM where
  name : List Char
  clock : Int
  channels : Int
  fmtp : List (List Char × List Char)
  staticPt : Option Int
deriving DecidableEq, Repr

/-- `MediaCapability` (sdp.py). -/
structure MediaCapabilityM where
  media : List Char
  profile : List Char
  direction : List Char
  codecs : List SDPCodecM
  rtcpMux : Bool
  telephoneEventPtPref : Int
  port : Int
deriving DecidableEq, Repr

/-- `SessionCapability` (sdp.py). -/
structure SessionCapabilityM where
  originUser : List Char
  ip : List Char
  sessionName : List Char
  version : Int
  timing : List Char
  audio : Option MediaCapabilityM
  video : Option MediaCapabilityM
deriving Repr

/-- `RtpMap` (sdp.py). -/
structure RtpMapM where
  pt : Int
  encoding : List Char
  clock : Int
  channels : Int
deriving DecidableEq, Repr

/-- `MediaDesc` (sdp.py). -/
structure MediaDescM where
  media : List Char
  port : Int
  proto : List Char
  fmts : List Int
  connAddr : Option (List Char)
  direction : Option (List Char)
  rtpmap : List (Int × RtpMapM)
  fmtp : List (Int × List (List Char × List Char))
  rtcpMux : Bool
deriving Repr

/-- `SDPParsed` (sdp.py). -/
structure SDPParsedM where
  origin : List Char
  sessionName : List Char
  connection : Option (List Char)
  timing : List Char
  media : List MediaDescM
deriving Repr

/-- `SDPBuilder._origin`; `now` stands for `int(time.time())`. -/
def originLine (user ip : List Char) (version : Int) (now : Int) : List Char :=
  chars "o=" ++ user ++ ' ' :: intRepr now ++ ' ' :: intRepr version ++
    chars " IN IP4 " ++ ip

/-- `SDPBuilder._rtpmap_line`. -/
def rtpmapLine (pt : Int) (c : SDPCodecM) : List Char :=
  let ch := if c.channels ≠ 0 ∧ c.channels ≠ 1 then '/' :: intRepr c.channels else []
  chars "a=rtpmap:" ++ intRepr pt ++ ' ' :: c.name ++ '/' :: intRepr c.clock ++ ch

/-- Python `";".join(f"{k}={v}" ...)`. -/
def fmtpParams : List (List Char × List Char) → List Char
  | [] => []
  | [(k, v)] => k ++ '=' :: v
  | (k, v) :: rest => k ++ '=' :: v ++ ';' :: fmtpParams rest

/-- `SDPBuilder._fmtp_line`. -/
def fmtpLine (pt : Int) (fmtp : List (List Char × List Char)) : Option (List Char) :=
  if fmtp = [] then none
  else some (chars "a=fmtp:" ++ intRepr pt ++ ' ' :: fmtpParams fmtp)

/-- The codec-identity key `(name lowercased, clock, channels)`. -/
def codecKey (c : SDPCodecM) : List Char × Int × Int :=
  (pyLower c.name, c.clock, c.channels)

/-- `("telephone-event", 8000, 1)`. -/
def teKey : List Char × Int × Int := (chars "telephone-event", 8000, 1)

/-- Stable insertion of `x` into an already-sorted list: before the first
element with a strictly larger key (so earlier elements win ties, matching
Python's stable `list.sort`). -/
def insertStable {α : Type} (key : α → Nat) (x : α) : List α → List α
  | [] => [x]
  | y :: rest => if key x ≤ key y then x :: y :: rest else y :: insertStable key x rest

/-- Python's stable `list.sort(key=...)` for a natural-number key. -/
def stableSortByKey {α : Type} (key : α → Nat) (l : List α) : List α :=
  l.foldr (insertStable key) []

/-- The normalised remote codec list built from `md.fmts` in
`SDPBuilder.build_answer` (rtpmap entry, or the implicit static map for
payload types 0 and 8). -/
def remoteCodecsOf (md : MediaDescM) :
    List (Int × (List Char × Int × Int) × List (List Char × List Char)) :=
  md.fmts.foldr
    (fun pt acc =>
      match dictGet md.rtpmap pt with
      | some r => (pt, (pyLower r.encoding, r.clock, r.channels),
                   (dictGet md.fmtp pt).getD []) :: acc
      | none =>
        if pt = 0 then (0, (chars "pcmu", 8000, 1), ([] : List (List Char × List Char))) :: acc
        else if pt = 8 then (8, (chars "pcma", 8000, 1), ([] : List (List Char × List Char))) :: acc
        else acc)
    []

/-- `events = events_local or events_remote or "0-16"` with Python truthiness. -/
def pyOrStr (a : Option (List Char)) (b : List Char) : List Char :=
  match a with
  | some v => if v = [] then b else v
  | none => b

/-- The `m=... 0 ...` rejection line emitted for an unacceptable offer m-line. -/
def rejectLine (md : MediaDescM) : List Char :=
  chars "m=" ++ md.media ++ chars " 0 " ++ md.proto ++ ' ' ::
    joinSpace (md.fmts.map intRepr)
where
  joinSpace : List (List Char) → List Char
    | [] => []
    | [x] => x
    | x :: rest => x ++ ' ' :: joinSpace rest

/-- The direction if-chain of `SDPBuilder.build_answer` (RFC 3264 §6.1):
`off_dir = md.direction or "sendrecv"`, then sendonly↦recvonly,
recvonly↦sendonly, inactive↦inactive, else `mcap.direction or "sendrecv"`. -/
def answerDir (mdDir : Option (List Char)) (capDir : List Char) : List Char :=
  let offDir := match mdDir with
    | some d => if d = [] then chars "sendrecv" else d
    | none => chars "sendrecv"
  if offDir = chars "sendonly" then chars "recvonly"
  else if offDir = chars "recvonly" then chars "sendonly"
  else if offDir = chars "inactive" then chars "inactive"
  else if capDir = [] then chars "sendrecv" else capDir

/-- The telephone-event block of `build_answer`: the first remote codec with
the telephone-event key publishes the locally preferred PT with an `events`
fmtp.  Returns `(answer_fmts, rtpmap_lines, fmtp_lines, chosen_any)`. -/
def buildAnswerTE (cap : MediaCapabilityM)
    (localCodecs : List ((List Char × Int × Int) × SDPCodecM))
    (remoteCodecs : List (Int × (List Char × Int × Int) × List (List Char × List Char))) :
    List Int × List (List Char) × List (List Char) × Bool :=
  match dictGet localCodecs teKey with
  | none => ([], [], [], false)
  | some teLocal =>
    match remoteCodecs.find? (fun x => x.2.1 = teKey) with
    | none => ([], [], [], false)
    | some (_, _, rfmtp) =>
      let tePt := cap.telephoneEventPtPref
      let events :=
        pyOrStr (dictGet teLocal.fmtp (chars "events"))
          (pyOrStr (dictGet rfmtp (chars "events")) (chars "0-16"))
      let fls := match fmtpLine tePt [(chars "events", events)] with
        | some fl => [fl]
        | none => []
      ([tePt], [rtpmapLine tePt teLocal], fls, true)

/-- One step of the regular-codec loop of `build_answer`.  The state is
`(dynCounter, answer_fmts, rtpmap_lines, fmtp_lines, chosen_any)`; `none`
models an exhausted 96–127 dynamic-PT iterator (`StopIteration`). -/
def buildAnswerStep (cap : MediaCapabilityM)
    (localCodecs : List ((List Char × Int × Int) × SDPCodecM))
    (st : Nat × List Int × List (List Char) × List (List Char) × Bool)
    (rc : Int × (List Char × Int × Int) × List (List Char × List Char)) :
    Option (Nat × List Int × List (List Char) × List (List Char) × Bool) :=
  let (dyn, fmts, rls, fls, chosen) := st
  match dictGet localCodecs rc.2.1 with
  | none => some st
  | some lc =>
    if rc.2.1 = teKey then some st
    else
      let nextDyn : Nat → Option (Int × Nat) := fun d =>
        if d ≤ 127 then some ((d : Int), d + 1) else none
      let aptRes : Option (Int × Nat) :=
        match lc.staticPt with
        | some sp => some (sp, dyn)
        | none =>
          if pyLower lc.name = chars "telephone-event" then
            some (cap.telephoneEventPtPref, dyn)
          else
            match nextDyn dyn with
            | none => none
            | some (v, d') =>
              if v = cap.telephoneEventPtPref then nextDyn d' else some (v, d')
      match aptRes with
      | none => none
      | some (apt0, dyn') =>
        -- `if apt == te_pref and name != "telephone-event": apt = next(...)`
        let bumpRes : Option (Int × Nat) :=
          if apt0 = cap.telephoneEventPtPref ∧ pyLower lc.name ≠ chars "telephone-event" then
            nextDyn dyn'
          else some (apt0, dyn')
        match bumpRes with
        | none => none
        | some (apt, dyn'') =>
          if fmts.contains apt then some (dyn'', fmts, rls, fls, chosen)
          else
            let fls' := match fmtpLine apt lc.fmtp with
              | some fl => fls ++ [fl]
              | none => fls
            some (dyn'', fmts ++ [apt], rls ++ [rtpmapLine apt lc], fls', true)

/-- One offered m-line of `SDPBuilder.build_answer`: the produced answer lines
(`none` models dynamic-PT exhaustion). -/
def buildAnswerMedia (md : MediaDescM) (mcap : Option MediaCapabilityM) :
    Option (List (List Char)) :=
  match mcap with
  | none => some [rejectLine md]
  | some cap =>
    let localCodecs :=
      cap.codecs.foldl (fun d c => dictSet d (codecKey c) c) []
    let localOrder :=
      (cap.codecs.enum.foldl (fun d ci => dictSet d (codecKey ci.2) ci.1) [] :
        List ((List Char × Int × Int) × Nat))
    let remoteCodecs :=
      stableSortByKey (fun x => (dictGet localOrder x.2.1).getD 9999)
        (remoteCodecsOf md)
    let ansDir := answerDir md.direction cap.direction
    let (fmts0, rls0, fls0, chosen0) := buildAnswerTE cap localCodecs remoteCodecs
    match remoteCodecs.foldlM (buildAnswerStep cap localCodecs)
        (96, fmts0, rls0, fls0, chosen0) with
    | none => none
    | some (_, fmts, rls, fls, chosen) =>
      if ¬ chosen then some [rejectLine md]
      else
        let port := if cap.port ≠ 0 then cap.port else 0
        let mLine :=
          chars "m=" ++ cap.media ++ ' ' :: intRepr port ++ ' ' :: cap.profile ++
            ' ' :: rejectLine.joinSpace (fmts.map intRepr)
        some ([mLine, chars "a=" ++ ansDir] ++
          (if cap.rtcpMux ∧ md.rtcpMux then [chars "a=rtcp-mux"] else []) ++
          rls ++ fls)

/-- `SDPBuilder.build_answer`; `now` stands for `int(time.time())` in the
origin line.  `none` models dynamic-PT exhaustion inside a media section. -/
def buildAnswer (offer : SDPParsedM) (localCaps : SessionCapabilityM) (now : Int) :
    Option (List Char) :=
  let headerLines :=
    [chars "v=0",
     originLine localCaps.originUser localCaps.ip localCaps.version now,
     chars "s=" ++ localCaps.sessionName,
     chars "c=IN IP4 " ++ localCaps.ip,
     chars "t=" ++ offer.timing]
  match offer.media.foldlM
      (fun acc md =>
        let mcap :=
          if md.media = chars "audio" then localCaps.audio
          else if md.media = chars "video" then localCaps.video
          else none
        (buildAnswerMedia md mcap).map (fun ls => acc ++ ls))
      headerLines with
  | none => none
  | some lines => some (joinCRLF lines ++ chars "\r\n")

-- ======================= generic split lemmas =======================

theorem splitFirst_eq_none_of {sep : Char} {s : List Char} (h : sep ∉ s) :
    splitFirst sep s = none := by
  induction s with
  | nil => rfl
  | cons c rest ih =>
    rw [splitFirst]
    have hc : ¬ c = sep := fun hc => h (hc ▸ List.mem_cons_self c rest)
    rw [if_neg hc, ih (fun hm => h (List.mem_cons_of_mem c hm))]

theorem splitFirst_append_absent {sep : Char} {l : List Char} (h : sep ∉ l)
    (r : List Char) : splitFirst sep (l ++ sep :: r) = some (l, r) := by
  induction l with
  | nil => simp [splitFirst]
  | cons c rest ih =>
    rw [List.cons_append, splitFirst]
    have hc : ¬ c = sep := fun hc => h (hc ▸ List.mem_cons_self c rest)
    rw [if_neg hc, ih (fun hm => h (List.mem_cons_of_mem c hm))]

theorem rsplitFirst_append_absent {sep : Char} {p : List Char} (h : sep ∉ p)
    (l : List Char) : rsplitFirst sep (l ++ sep :: p) = some (l, p) := by
  rw [rsplitFirst]
  have hrev : sep ∉ p.reverse := fun hm => h (List.mem_reverse.mp hm)
  have : (l ++ sep :: p).reverse = p.reverse ++ sep :: l.reverse := by
    simp
  rw [this, splitFirst_append_absent hrev]
  simp

-- ======================= C10 : unparsable port is swallowed into host =======================

/-- C10.  For every URI of the form `sip:host:port` (no user, parameter,
header or bracket syntax involved) whose port section is not a valid integer,
`SIPURI` construction succeeds — `parseSIPURI` is total, mirroring the caught
`ValueError` — and stores the entire `host:port` text in `host`, leaving
`port` unset and the scheme `"sip"`. -/
theorem uriUnparsablePortKeepsHost (h p : List Char)
    (hq : '?' ∉ h) (hq' : '?' ∉ p) (hs : ';' ∉ h) (hs' : ';' ∉ p)
    (ha : '@' ∉ h) (ha' : '@' ∉ p) (hc : ':' ∉ p) (_hp : p ≠ [])
    (hbr : pyStartsWith (h ++ ':' :: p) (chars "[") = false)
    (hstrip : pyStrip (chars "sip:" ++ h ++ ':' :: p) = chars "sip:" ++ h ++ ':' :: p)
    (hint : pyInt p = none) :
    (parseSIPURI (chars "sip:" ++ h ++ ':' :: p)).host = h ++ ':' :: p ∧
    (parseSIPURI (chars "sip:" ++ h ++ ':' :: p)).port = none ∧
    (parseSIPURI (chars "sip:" ++ h ++ ':' :: p)).scheme = chars "sip" := by
  have hsplit : splitFirst ':' (chars "sip:" ++ h ++ ':' :: p) =
      some (chars "sip", h ++ ':' :: p) := by
    have : chars "sip:" ++ h ++ ':' :: p = chars "sip" ++ ':' :: (h ++ ':' :: p) := by
      simp [chars]
    rw [this]
    exact splitFirst_append_absent (by decide) _
  have hnq : splitFirst '?' (h ++ ':' :: p) = none :=
    splitFirst_eq_none_of (by
      intro hm
      rcases List.mem_append.mp hm with hm | hm
      · exact hq hm
      · rcases List.mem_cons.mp hm with hm | hm
        · exact absurd hm (by decide)
        · exact hq' hm)
  have hns : splitFirst ';' (h ++ ':' :: p) = none :=
    splitFirst_eq_none_of (by
      intro hm
      rcases List.mem_append.mp hm with hm | hm
      · exact hs hm
      · rcases List.mem_cons.mp hm with hm | hm
        · exact absurd hm (by decide)
        · exact hs' hm)
  have hna : rsplitFirst '@' (h ++ ':' :: p) = none := by
    rw [rsplitFirst]
    rw [splitFirst_eq_none_of (by
      intro hm
      rw [List.mem_reverse] at hm
      rcases List.mem_append.mp hm with hm | hm
      · exact ha hm
      · rcases List.mem_cons.mp hm with hm | hm
        · exact absurd hm (by decide)
        · exact ha' hm)]
  have hcol : containsChar ':' (h ++ ':' :: p) = true := by
    simp [containsChar, List.contains_eq_any_beq]
  have hrsp : rsplitFirst ':' (h ++ ':' :: p) = some (h, p) :=
    rsplitFirst_append_absent hc h
  have hraw : chars "sip:" ++ h ++ ':' :: p ≠ [] := by simp [chars]
  rw [parseSIPURI, hstrip, if_neg hraw, hsplit]
  simp only [hnq, hns, hna, hrsp, hcol, hint]
  rw [if_pos (by constructor <;> simp [hbr])]
  simp [hrsp, hint]
  decide

/-- C10 witness at `"sip:example.com:abc"`. -/
theorem uriUnparsablePortKeepsHost_witness :
    (parseSIPURI (chars "sip:example.com:abc")).host = chars "example.com:abc" ∧
    (parseSIPURI (chars "sip:example.com:abc")).port = none ∧
    (parseSIPURI (chars "sip:example.com:abc")).scheme = chars "sip" := by
  have h := uriUnparsablePortKeepsHost (chars "example.com") (chars "abc")
    (by decide) (by decide) (by decide) (by decide) (by decide) (by decide)
    (by decide) (by decide) (by decide) (by decide) (by decide)
  simpa [chars] using h

-- ======================= C8 : answer direction mapping =======================

/-- C8.  For every offered media line, the direction attribute of the
constructed answer follows the RFC 3264 mapping: offered `sendonly` yields
`recvonly`, offered `recvonly` yields `sendonly`, offered `inactive` yields
`inactive`, and offered `sendrecv` (or an absent/empty direction) yields the
local capability's configured direction.  Moreover, whenever
`SDPBuilder.build_answer` accepts an offered m-line (producing more than the
single rejection line), the second emitted line is exactly the `a=` direction
attribute computed by that mapping. -/
theorem answerDirectionMapping (capDir : List Char) (md : MediaDescM)
    (cap : MediaCapabilityM) (lines : List (List Char)) :
    (answerDir (some (chars "sendonly")) capDir = chars "recvonly" ∧
     answerDir (some (chars "recvonly")) capDir = chars "sendonly" ∧
     answerDir (some (chars "inactive")) capDir = chars "inactive") ∧
    (capDir ≠ [] →
      answerDir (some (chars "sendrecv")) capDir = capDir ∧
      answerDir none capDir = capDir) ∧
    (buildAnswerMedia md (some cap) = some lines → 2 ≤ lines.length →
      lines[1]? = some (chars "a=" ++ answerDir md.direction cap.direction)) := by
  refine ⟨⟨?_, ?_, ?_⟩, ?_, ?_⟩
  · simp [answerDir, chars]
  · simp [answerDir, chars]
  · simp [answerDir, chars]
  · intro hne
    constructor <;> simp [answerDir, chars, hne]
  · intro hb hlen
    simp only [buildAnswerMedia] at hb
    split at hb
    · exact absurd hb (by simp)
    · split at hb
      · injection hb with hb
        rw [← hb] at hlen
        simp at hlen
      · injection hb with hb
        rw [← hb]
        simp

/-- The concrete `sendonly` audio offer of the C8 witness. -/
def c8md : MediaDescM :=
  { media := chars "audio", port := 49170, proto := chars "RTP/AVP", fmts := [0],
    connAddr := none, direction := some (chars "sendonly"), rtpmap := [], fmtp := [],
    rtcpMux := false }

/-- The concrete local audio capability of the C8 witness. -/
def c8cap : MediaCapabilityM :=
  { media := chars "audio", profile := chars "RTP/AVP", direction := chars "sendrecv",
    codecs := [{ name := chars "PCMU", clock := 8000, channels := 1,
                 fmtp := [], staticPt := some 0 }],
    rtcpMux := true, telephoneEventPtPref := 101, port := 5004 }

/-- The answer lines `build_answer` emits for the C8 witness media. -/
def c8lines : List (List Char) :=
  [chars "m=audio 5004 RTP/AVP 0", chars "a=recvonly", chars "a=rtpmap:0 PCMU/8000"]

/-- C8 witness: a concrete `sendonly` audio offer answered `recvonly` in the
second line. -/
theorem answerDirectionMapping_witness :
    (chars "sendrecv" : List Char) ≠ [] ∧
    buildAnswerMedia c8md (some c8cap) = some c8lines ∧ 2 ≤ c8lines.length ∧
    c8lines[1]? = some (chars "a=" ++ answerDir c8md.direction c8cap.direction) := by
  refine ⟨by decide, by decide, by decide, ?_⟩
  exact (answerDirectionMapping (chars "sendrecv") c8md c8cap c8lines).2.2
    (by decide) (by decide)

-- ======================= C2 : Timer B/F terminate, Timer H does not =======================

/-- The failing input for C2: an INVITE server transaction sitting in
COMPLETED (where `send_final_response` started Timers G and H). -/
def timerHExample : TxRec :=
  { kind := .INVITE_SERVER, state := .COMPLETED, retransCount := 0,
    hasRequest := true, hasResponse := true }

/-- C2.  `_on_timer_fired` surfaces `on_timeout` and transitions to
Terminated for Timers B and F, but for Timer H it only surfaces `on_timeout`
and performs no transition at all: no branch of the handler matches Timer H,
so an INVITE server transaction in COMPLETED stays in COMPLETED when its
timeout timer fires — contradicting the claim (and RFC 3261/the spec, which
the surrounding B/F handling follows). -/
theorem timerHFiringDoesNotTerminate :
    (∀ (timers : SIPTimersM) (tx : TxRec),
      onTimerFired timers tx .B =
        ({ tx with state := .TERMINATED },
         [.cbTimeout .B, .cleanupAllTimers, .cbTerminated]) ∧
      onTimerFired timers tx .F =
        ({ tx with state := .TERMINATED },
         [.cbTimeout .F, .cleanupAllTimers, .cbTerminated]) ∧
      onTimerFired timers tx .H = (tx, [.cbTimeout .H])) ∧
    (onTimerFired {} timerHExample .H).1.state = .COMPLETED ∧
    TxStateM.COMPLETED ≠ TxStateM.TERMINATED := by
  refine ⟨fun timers tx => ⟨?_, ?_, ?_⟩, by decide, by decide⟩
  · simp [onTimerFired, transitionTo]
  · simp [onTimerFired, transitionTo]
  · simp [onTimerFired]

-- ======================= C3 : non-INVITE client final response =======================

/-- The concrete non-INVITE client transaction used for C3. -/
def c3tx : TxRec :=
  { kind := .NON_INVITE_CLIENT, state := .TRYING, retransCount := 0,
    hasRequest := true, hasResponse := false }

/-- C3 counterexample.  In TRYING, a 200 final response moves the non-INVITE
client transaction straight to TERMINATED — not to COMPLETED — cancelling E
and F; the emitted actions contain no Timer K start (the event list is
exhaustively enumerated and `startTimer` does not occur in it). -/
theorem nonInviteClientFinalSkipsCompleted_cex :
    nonInviteClientProcess c3tx (some 200) =
      ({ c3tx with state := .TERMINATED },
       [.cleanupAllTimers, .cbTerminated, .cancelTimer .E, .cancelTimer .F, .cbFinal]) ∧
    TxStateM.TERMINATED ≠ TxStateM.COMPLETED := by
  constructor
  · rfl
  · decide

/-- C3 amended.  For every non-INVITE client transaction in Trying or
Proceeding, a final response (status ≥ 200) transitions the transaction
directly to Terminated; in Trying, Timers E and F are cancelled explicitly
(in Proceeding the termination cleanup cancels the remaining timers); no
Completed state is entered and Timer K is never started. -/
theorem nonInviteClientFinalResponse (tx : TxRec) (sc : Int) (h : 200 ≤ sc) :
    (tx.state = .TRYING →
      nonInviteClientProcess tx (some sc) =
        ({ tx with state := .TERMINATED },
         [.cleanupAllTimers, .cbTerminated, .cancelTimer .E, .cancelTimer .F, .cbFinal])) ∧
    (tx.state = .PROCEEDING →
      nonInviteClientProcess tx (some sc) =
        ({ tx with state := .TERMINATED }, [.cleanupAllTimers, .cbTerminated, .cbFinal])) := by
  constructor
  · intro hst
    have h199 : ¬ (100 ≤ sc ∧ sc ≤ 199) := by omega
    simp [nonInviteClientProcess, hst, transitionTo, h199, h]
  · intro hst
    have hne : tx.state ≠ .TRYING := by rw [hst]; decide
    simp [nonInviteClientProcess, hst, transitionTo, hne, h, show ¬ sc < 200 by omega]

/-- C3 witness: the amended behaviour at the concrete transaction and a 200
response. -/
theorem nonInviteClientFinalResponse_witness :
    (200 : Int) ≤ 200 ∧ c3tx.state = .TRYING ∧
    nonInviteClientProcess c3tx (some 200) =
      ({ c3tx with state := .TERMINATED },
       [.cleanupAllTimers, .cbTerminated, .cancelTimer .E, .cancelTimer .F, .cbFinal]) :=
  ⟨by decide, by decide,
   (nonInviteClientFinalResponse c3tx 200 (by decide)).1 (by decide)⟩

-- ======================= C1 : ACK routing in the transaction manager =======================

theorem dictSet_keys_of_mem {V : Type} {d : List (List Char × V)} {k : List Char}
    (h : dictGet d k ≠ none) (v : V) :
    (dictSet d k v).map Prod.fst = d.map Prod.fst := by
  induction d with
  | nil => simp [dictGet] at h
  | cons p rest ih =>
    rw [dictSet]
    by_cases hk : p.1 = k
    · rw [if_pos hk]; simp
    · rw [if_neg hk]
      simp only [List.map_cons, List.cons.injEq, true_and]
      apply ih
      simp only [dictGet, List.find?] at h
      rw [show (p.1 = k : Bool) = false by simp [hk]] at h
      exact h

/-- C1 amended.  An inbound ACK is looked up by its topmost Via branch among
all transactions; when a matching transaction exists the ACK is routed to it
as an event and no transaction is created (the table keys are unchanged).
When no matching transaction exists, however, `process_request` falls through
to `create_server_transaction` and creates a brand-new non-INVITE server
transaction keyed by the ACK's branch. -/
theorem ackRouting (timers : SIPTimersM) (tbl : List (List Char × TxRec))
    (via : Option (List Char)) (fresh : List Char) :
    (∀ tx, dictGet tbl (generateTransactionId via fresh) = some tx →
      processRequest timers tbl .ACK via fresh =
        (dictSet tbl (generateTransactionId via fresh)
           (txProcessRequest timers tx .ACK).1,
         .ackRouted (generateTransactionId via fresh),
         (txProcessRequest timers tx .ACK).2) ∧
      (processRequest timers tbl .ACK via fresh).1.map Prod.fst = tbl.map Prod.fst) ∧
    (dictGet tbl (generateTransactionId via fresh) = none →
      processRequest timers tbl .ACK via fresh =
        (tbl ++ [(generateTransactionId via fresh,
                  { kind := .NON_INVITE_SERVER, state := .TRYING, retransCount := 0,
                    hasRequest := true, hasResponse := false })],
         .createdServer (generateTransactionId via fresh) .NON_INVITE_SERVER,
         [.cbRequestReceived])) := by
  constructor
  · intro tx htx
    have heq : processRequest timers tbl .ACK via fresh =
        (dictSet tbl (generateTransactionId via fresh)
           (txProcessRequest timers tx .ACK).1,
         .ackRouted (generateTransactionId via fresh),
         (txProcessRequest timers tx .ACK).2) := by
      simp [processRequest, htx]
    refine ⟨heq, ?_⟩
    rw [heq]
    exact dictSet_keys_of_mem (by rw [htx]; exact fun hc => Option.noConfusion hc) _
  · intro hnone
    simp [processRequest, createServerTransaction, hnone, serverTxStart, transitionTo]

/-- C1 counterexample.  A concrete ACK whose branch matches no transaction:
`process_request` creates a new server transaction for it (the table grows
from empty to one entry), contradicting "never creates a new transaction for
an ACK, whether or not a matching transaction exists". -/
theorem ackRouting_cex :
    processRequest {} [] .ACK (some (chars "SIP/2.0/UDP h.test;branch=z9hG4bKabc")) [] =
      ([(chars "z9hG4bKabc",
         { kind := .NON_INVITE_SERVER, state := .TRYING, retransCount := 0,
           hasRequest := true, hasResponse := false })],
       .createdServer (chars "z9hG4bKabc") .NON_INVITE_SERVER,
       [.cbRequestReceived]) ∧
    ([(chars "z9hG4bKabc",
       TxRec.mk .NON_INVITE_SERVER .TRYING 0 true false)] : List (List Char × TxRec)) ≠ [] := by
  constructor
  · rfl
  · decide

/-- C1 witness: the matched-ACK half of the amended claim at a concrete
one-entry table. -/
theorem ackRouting_witness :
    dictGet [(chars "z9hG4bKabc", timerHExample)] (generateTransactionId
      (some (chars "SIP/2.0/UDP h.test;branch=z9hG4bKabc")) []) = some timerHExample ∧
    processRequest {} [(chars "z9hG4bKabc", timerHExample)] .ACK
        (some (chars "SIP/2.0/UDP h.test;branch=z9hG4bKabc")) [] =
      ([(chars "z9hG4bKabc",
         { kind := .INVITE_SERVER, state := .CONFIRMED, retransCount := 0,
           hasRequest := true, hasResponse := true })],
       .ackRouted (chars "z9hG4bKabc"),
       [.cancelTimer .G, .cancelTimer .H, .startTimer .I 5000]) := by
  refine ⟨by rfl, ?_⟩
  have h := ((ackRouting {} [(chars "z9hG4bKabc", timerHExample)]
    (some (chars "SIP/2.0/UDP h.test;branch=z9hG4bKabc")) []).1 timerHExample (by rfl)).1
  rw [h]
  rfl

-- ======================= C7 : remote tag monotonicity =======================

/-- The concrete dialog of the C7 counterexample: remote tag already set. -/
def c7dialog : SIPDialogM :=
  { dialogId := chars "cid-lt", state := .EARLY, localUri := chars "sip:a@h",
    remoteUri := chars "sip:b@h", localTag := chars "lt",
    remoteTag := some (chars "a"), callId := chars "cid", localCseq := 1,
    remoteCseq := none, routeSet := [], secure := false }

/-- The concrete 200 response of the C7 counterexample, carrying a different
To-tag. -/
def c7response : SIPMessageM :=
  { emptyMessage with
    statusCode := some 200
    headers := [mkHeader (chars "To") (chars "<sip:b@h>;tag=b")] }

/-- C7 counterexample.  A dialog whose remote tag is already `"a"` receives a
200 response with To-tag `"b"`: `update_dialog_from_response` overwrites the
remote tag with `"b"`, contradicting "no later response (provisional or
final) overwrites it with a different value". -/
theorem remoteTagOverwritten_cex :
    updateDialogFromResponse c7dialog c7response =
      some { c7dialog with remoteTag := some (chars "b"), state := .CONFIRMED } ∧
    some (chars "b") ≠ c7dialog.remoteTag := by
  constructor
  · decide
  · decide

/-- C7 amended.  The remote tag is monotonic only under provisional
responses: a 1xx never overwrites a truthy remote tag, and a response ≥ 300
leaves it unchanged; but a 2xx whose To header carries a tag overwrites the
remote tag unconditionally (and moves the dialog to CONFIRMED). -/
theorem remoteTagUpdateBehavior (d : SIPDialogM) (resp : SIPMessageM) (sc : Int)
    (hsc : resp.statusCode = some sc) :
    (100 ≤ sc → sc ≤ 199 → ¬ remoteTagFalsy d →
      ∃ d', updateDialogFromResponse d resp = some d' ∧ d'.remoteTag = d.remoteTag) ∧
    (200 ≤ sc → sc ≤ 299 →
      ∀ t, searchParam (chars "tag=") ((getHeader resp (chars "to")).getD []) = some t →
        updateDialogFromResponse d resp =
          some { d with remoteTag := some t, state := .CONFIRMED }) ∧
    (300 ≤ sc →
      updateDialogFromResponse d resp = some { d with state := .TERMINATED } ∧
      ({ d with state := DialogStateM.TERMINATED } : SIPDialogM).remoteTag = d.remoteTag) := by
  refine ⟨?_, ?_, ?_⟩
  · intro h1 h2 hset
    simp only [updateDialogFromResponse, hsc, if_pos (And.intro h1 h2)]
    cases htag : searchParam (chars "tag=") ((getHeader resp (chars "to")).getD []) with
    | none => exact ⟨d, rfl, rfl⟩
    | some t =>
      refine ⟨d, ?_, rfl⟩
      simp [hset]
  · intro h1 h2 t htag
    have hno1 : ¬ (100 ≤ sc ∧ sc ≤ 199) := by omega
    simp only [updateDialogFromResponse, hsc, if_neg hno1,
      if_pos (And.intro h1 h2), htag]
  · intro h3
    have hno1 : ¬ (100 ≤ sc ∧ sc ≤ 199) := by omega
    have hno2 : ¬ (200 ≤ sc ∧ sc ≤ 299) := by omega
    refine ⟨?_, rfl⟩
    simp only [updateDialogFromResponse, hsc, if_neg hno1, if_neg hno2,
      if_pos (show sc ≥ 300 by omega)]

/-- C7 witness: the 2xx-overwrite and ≥300-preserve branches of the amended
claim at the concrete dialog and responses. -/
theorem remoteTagUpdateBehavior_witness :
    c7response.statusCode = some 200 ∧
    searchParam (chars "tag=") ((getHeader c7response (chars "to")).getD []) =
      some (chars "b") ∧
    updateDialogFromResponse c7dialog c7response =
      some { c7dialog with remoteTag := some (chars "b"), state := .CONFIRMED } :=
  ⟨by rfl, by decide,
   (remoteTagUpdateBehavior c7dialog c7response 200 (by rfl)).2.1
     (by decide) (by decide) (chars "b") (by decide)⟩

-- ======================= C5 : -sess HA1 is dead code =======================

theorem charToUpper_ne_s (c : Char) : c.toUpper ≠ 's' := by
  rw [Char.toUpper]
  by_cases h : c.toNat ≥ 97 ∧ c.toNat ≤ 122
  · rw [if_pos h]
    intro hc
    have hval : (Char.ofNat (c.toNat - 32)).toNat = c.toNat - 32 := by
      unfold Char.ofNat
      rw [dif_pos (Or.inl (by omega : c.toNat - 32 < 55296))]
      rfl
    have : (Char.ofNat (c.toNat - 32)).toNat = 's'.toNat := by rw [hc]
    rw [hval] at this
    have : c.toNat - 32 = 115 := this
    omega
  · rw [if_neg h]
    intro hc
    have : c.toNat = 115 := by rw [hc]; rfl
    omega

/-- After `str.upper()`, no string ends with the lowercase `-sess`. -/
theorem pyUpper_not_endsWith_sess (alg : List Char) :
    pyEndsWith (pyUpper alg) (chars "-sess") = false := by
  rw [pyEndsWith, pyUpper, ← List.map_reverse]
  cases alg.reverse with
  | nil => rfl
  | cons c rest =>
    rw [List.map_cons]
    show List.isPrefixOf ('s' :: chars "ses-") (c.toUpper :: rest.map Char.toUpper) = false
    rw [List.isPrefixOf]
    have : ('s' == c.toUpper) = false := by
      rw [beq_eq_false_iff_ne]
      exact fun hs => charToUpper_ne_s c hs.symm
    rw [this]
    rfl

/-- C5.  `generate_authorization_header` uppercases the algorithm before
passing it down, and no uppercased string ends with the lowercase `-sess`
that `_calculate_ha1` tests for, so on the challenge path the session-HA1
branch is unreachable: for every challenge algorithm — `MD5-sess` included —
HA1 is the plain `H(username:realm:password)`, never
`H(H(username:realm:password):nonce:cnonce)`. -/
theorem sessHA1NeverComputed :
    (∀ alg : List Char, pyEndsWith (pyUpper alg) (chars "-sess") = false) ∧
    (∀ (md5 sha256 : List Char → List Char) (u r pw n cn alg : List Char),
      calculateHA1 md5 sha256 u r pw n cn (pyUpper alg) =
        hashFunction md5 sha256 (u ++ ':' :: r ++ ':' :: pw) (pyUpper alg)) ∧
    (∀ (md5 sha256 : List Char → List Char) (u r pw n cn : List Char),
      calculateHA1 md5 sha256 u r pw n cn (pyUpper (chars "MD5-sess")) =
        some (md5 (u ++ ':' :: r ++ ':' :: pw))) := by
  have hupper : pyUpper (chars "MD5-sess") = chars "MD5-SESS" := by decide
  refine ⟨pyUpper_not_endsWith_sess, ?_, ?_⟩
  · intro md5 sha256 u r pw n cn alg
    rw [calculateHA1]
    cases hh : hashFunction md5 sha256 (u ++ ':' :: r ++ ':' :: pw) (pyUpper alg) with
    | none => rfl
    | some ha1 => rw [pyUpper_not_endsWith_sess]; rfl
  · intro md5 sha256 u r pw n cn
    rw [calculateHA1, hupper]
    rw [show hashFunction md5 sha256 (u ++ ':' :: r ++ ':' :: pw) (chars "MD5-SESS") =
        some (md5 (u ++ ':' :: r ++ ':' :: pw)) from by
      rw [hashFunction, if_pos (by decide)]]
    rw [show pyEndsWith (chars "MD5-SESS") (chars "-sess") = false from by decide]
    rfl

-- ======================= C6 : missing realm credentials =======================

/-- C6.  For every 401/407 challenge whose (parsed) realm has no entry in the
credential store, the re-issue path surfaces failure: `create_authenticated_request`
returns the original request object unchanged, and the user agent's challenge
handler hands nothing to `create_client_transaction` — no authenticated
request is produced or sent. -/
theorem missingRealmCredentialsNoReissue
    (md5 sha256 : List Char → List Char) (creds : CredStore) (ncs : NonceCounts)
    (req resp : SIPMessageM) (cnonce branchHex : List Char)
    (hst : resp.statusCode = some 401 ∨ resp.statusCode = some 407)
    (hrealm : ∀ v,
      getHeader resp (if resp.statusCode = some 401 then chars "www-authenticate"
        else chars "proxy-authenticate") = some v →
      dictGet creds ((dictGet (parseWWWAuthenticate v) (chars "realm")).getD []) = none) :
    createAuthenticatedRequest md5 sha256 creds ncs req resp cnonce branchHex =
      .origUnchanged ∧
    uaHandleAuthChallenge md5 sha256 creds ncs (some req) resp cnonce branchHex =
      none := by
  have hhandle : handleAuthenticationChallenge md5 sha256 creds ncs resp req cnonce
      = none := by
    rw [handleAuthenticationChallenge]
    rw [if_neg (by rcases hst with h | h <;> simp [h])]
    cases hv : getHeader resp (if resp.statusCode = some 401
        then chars "www-authenticate" else chars "proxy-authenticate") with
    | none => simp only [hv]
    | some v =>
      simp only [hv]
      by_cases hemp : v = []
      · rw [if_pos hemp]
      · rw [if_neg hemp]
        cases hm : req.method with
        | none => simp only [hm]
        | some md =>
          simp only [hm, generateAuthorizationHeader]
          rw [hrealm v hv]
  have hcreate : createAuthenticatedRequest md5 sha256 creds ncs req resp cnonce
      branchHex = .origUnchanged := by
    rw [createAuthenticatedRequest, hhandle]
  refine ⟨hcreate, ?_⟩
  rw [uaHandleAuthChallenge, hcreate]

/-- The C6 witness challenge response: a 401 with a realm no credentials
exist for. -/
def c6resp : SIPMessageM :=
  { emptyMessage with
    statusCode := some 401
    headers := [mkHeader (chars "WWW-Authenticate")
      (chars "Digest realm=\"r\", nonce=\"n1\", qop=\"auth\"")] }

/-- The C6 witness original request. -/
def c6req : SIPMessageM :=
  { emptyMessage with
    method := some .REGISTER
    uri := some (parseSIPURI (chars "sip:r"))
    headers := [mkHeader (chars "CSeq") (chars "1 REGISTER")] }

/-- C6 witness: with an empty credential store, the concrete 401 challenge
produces no authenticated request. -/
theorem missingRealmCredentialsNoReissue_witness :
    (c6resp.statusCode = some 401 ∨ c6resp.statusCode = some 407) ∧
    createAuthenticatedRequest id id [] [] c6req c6resp (chars "cn") (chars "bh") =
      .origUnchanged ∧
    uaHandleAuthChallenge id id [] [] (some c6req) c6resp (chars "cn") (chars "bh") =
      none := by
  have h := missingRealmCredentialsNoReissue id id [] [] c6req c6resp
    (chars "cn") (chars "bh") (Or.inl rfl) (fun v _ => rfl)
  exact ⟨Or.inl rfl, h.1, h.2⟩

-- ======================= strip / line infrastructure for the codec proofs =======================

/-- The first character (if any) is not Python whitespace. -/
def headNotWS : List Char → Bool
  | [] => true
  | c :: _ => ! isPyWS c

/-- No carriage return or line feed anywhere in the string. -/
def lineSafe (s : List Char) : Bool := s.all (fun c => !(c == '\r') && !(c == '\n'))

theorem lineSafe_append {a b : List Char} (ha : lineSafe a = true)
    (hb : lineSafe b = true) : lineSafe (a ++ b) = true := by
  rw [lineSafe, List.all_append]
  rw [lineSafe] at ha hb
  rw [ha, hb]
  rfl

theorem hasCRLF_eq_false_of_lineSafe {s : List Char} (h : lineSafe s = true) :
    hasCRLF s = false := by
  induction s using hasCRLF.induct with
  | case1 tail => simp [lineSafe] at h
  | case2 c rest hne ih =>
    rw [hasCRLF.eq_2 c rest hne]
    apply ih
    simp only [lineSafe, List.all_cons, Bool.and_eq_true] at h
    exact h.2
  | case3 => rfl

theorem dropWhile_eq_self_of_headNotWS {s : List Char} (h : headNotWS s = true) :
    s.dropWhile isPyWS = s := by
  cases s with
  | nil => rfl
  | cons c rest =>
    rw [List.dropWhile_cons, if_neg]
    simp only [headNotWS, Bool.not_eq_true'] at h
    simp [h]

theorem dropWSRight_eq_self_of_lastNotWS {s : List Char}
    (h : headNotWS s.reverse = true) : dropWSRight s = s := by
  rw [dropWSRight, dropWhile_eq_self_of_headNotWS h, List.reverse_reverse]

theorem pyStrip_eq_self_of {s : List Char} (h1 : headNotWS s = true)
    (h2 : headNotWS s.reverse = true) : pyStrip s = s := by
  rw [pyStrip, dropWhile_eq_self_of_headNotWS h1, dropWSRight_eq_self_of_lastNotWS h2]

theorem dropWhile_of_pyStrip_eq_self {s : List Char} (h : pyStrip s = s) :
    s.dropWhile isPyWS = s := by
  have h1 : (s.dropWhile isPyWS).Sublist s := List.dropWhile_sublist _
  have h2 : (dropWSRight (s.dropWhile isPyWS)).Sublist (s.dropWhile isPyWS) := by
    rw [dropWSRight]
    have := @List.dropWhile_sublist Char ((s.dropWhile isPyWS).reverse) isPyWS
    have := this.reverse
    simpa using this
  rw [pyStrip] at h
  have hlen : s.length ≤ (s.dropWhile isPyWS).length := by
    calc s.length = (dropWSRight (s.dropWhile isPyWS)).length := by rw [h]
    _ ≤ (s.dropWhile isPyWS).length := h2.length_le
  exact h1.eq_of_length (Nat.le_antisymm h1.length_le hlen)

theorem dropWSRight_of_pyStrip_eq_self {s : List Char} (h : pyStrip s = s) :
    dropWSRight s = s := by
  have hd := dropWhile_of_pyStrip_eq_self h
  rw [pyStrip, hd] at h
  exact h

theorem pyStrip_cons_space {v : List Char} (h : pyStrip v = v) :
    pyStrip (' ' :: v) = v := by
  rw [pyStrip, List.dropWhile_cons, if_pos (by decide),
    dropWhile_of_pyStrip_eq_self h, dropWSRight_of_pyStrip_eq_self h]

theorem pyStrip_eq_nil_iff {s : List Char} :
    pyStrip s = [] ↔ ∀ c ∈ s, isPyWS c = true := by
  rw [pyStrip, dropWSRight, List.reverse_eq_nil_iff, List.dropWhile_eq_nil_iff]
  constructor
  · intro h c hc
    have hsplit : c ∈ s.takeWhile isPyWS ++ s.dropWhile isPyWS := by
      rw [List.takeWhile_append_dropWhile]
      exact hc
    rcases List.mem_append.mp hsplit with hm | hm
    · exact List.mem_takeWhile_imp hm
    · exact h c (List.mem_reverse.mpr hm)
  · intro h c hc
    exact h c ((List.dropWhile_sublist isPyWS).subset (List.mem_reverse.mp hc))

theorem joinCRLF_cons_of_ne_nil (l : List Char) {ls : List (List Char)}
    (h : ls ≠ []) : joinCRLF (l :: ls) = l ++ '\r' :: '\n' :: joinCRLF ls := by
  cases ls with
  | nil => exact absurd rfl h
  | cons a as => rfl

theorem splitCRLF_join_front {ls : List (List Char)}
    (h : ∀ l ∈ ls, hasCRLF l = false) (tail : List Char) :
    splitCRLF (joinCRLF (ls ++ [tail])) = ls ++ splitCRLF tail := by
  induction ls with
  | nil => rfl
  | cons l ls' ih =>
    rw [List.cons_append, joinCRLF_cons_of_ne_nil l (by simp)]
    rw [splitCRLF_append_sep (h l (List.mem_cons_self l ls'))]
    rw [ih (fun x hx => h x (List.mem_cons_of_mem l hx))]
    rfl

theorem dropWSRight_append_crlf (s : List Char) :
    dropWSRight (s ++ ['\r', '\n']) = dropWSRight s := by
  rw [dropWSRight, dropWSRight, List.reverse_append]
  show (('\n' :: '\r' :: s.reverse).dropWhile isPyWS).reverse = _
  rw [List.dropWhile_cons, if_pos (by decide), List.dropWhile_cons, if_pos (by decide)]

theorem dropWSRight_append_of_ne_nil {b : List Char} (a : List Char)
    (h : dropWSRight b ≠ []) : dropWSRight (a ++ b) = a ++ dropWSRight b := by
  rw [dropWSRight, List.reverse_append, List.dropWhile_append]
  rw [dropWSRight] at h
  have hb : (b.reverse.dropWhile isPyWS).isEmpty = false := by
    cases hx : b.reverse.dropWhile isPyWS with
    | nil => rw [hx] at h; exact absurd rfl h
    | cons x xs => rfl
  rw [if_neg (by rw [hb]; exact Bool.false_ne_true), List.reverse_append,
    List.reverse_reverse, dropWSRight]

theorem dropWSRight_append_of_nil {b : List Char} (a : List Char)
    (h : dropWSRight b = []) : dropWSRight (a ++ b) = dropWSRight a := by
  rw [dropWSRight, List.reverse_append, List.dropWhile_append]
  rw [dropWSRight] at h
  have hb : b.reverse.dropWhile isPyWS = [] := by
    cases hx : b.reverse.dropWhile isPyWS with
    | nil => rfl
    | cons x xs => rw [hx] at h; simp at h
  rw [if_pos (by rw [hb]; rfl)]
  rfl

-- ======================= header line lemmas =======================

/-- Conditions under which one stored header survives the encode/parse cycle:
it passes `SIPHeader.validate` and its value is in stripped form (as every
value built through the `SIPHeader` constructor is). -/
def headerRT (h : SIPHeaderM) : Prop :=
  headerValidate h = true ∧ pyStrip h.value = h.value

theorem tokenChar_not_ws {c : Char} (h : headerTokenChar c = true) :
    isPyWS c = false := by
  rw [headerTokenChar] at h
  rw [isPyWS]
  rcases (by simpa using h) with h1 | h1 | h1 | h1
  · have : 'A'.toNat ≤ c.toNat ∧ c.toNat ≤ 'Z'.toNat := ⟨h1.1, h1.2⟩
    simp only [Bool.or_eq_false_iff]
    refine ⟨⟨⟨⟨⟨?_, ?_⟩, ?_⟩, ?_⟩, ?_⟩, ?_⟩ <;>
      · rw [decide_eq_false_iff_not]
        intro hc
        rw [hc] at this
        revert this
        decide
  · have : 'a'.toNat ≤ c.toNat ∧ c.toNat ≤ 'z'.toNat := ⟨h1.1, h1.2⟩
    simp only [Bool.or_eq_false_iff]
    refine ⟨⟨⟨⟨⟨?_, ?_⟩, ?_⟩, ?_⟩, ?_⟩, ?_⟩ <;>
      · rw [decide_eq_false_iff_not]
        intro hc
        rw [hc] at this
        revert this
        decide
  · have : '0'.toNat ≤ c.toNat ∧ c.toNat ≤ '9'.toNat := ⟨h1.1, h1.2⟩
    simp only [Bool.or_eq_false_iff]
    refine ⟨⟨⟨⟨⟨?_, ?_⟩, ?_⟩, ?_⟩, ?_⟩, ?_⟩ <;>
      · rw [decide_eq_false_iff_not]
        intro hc
        rw [hc] at this
        revert this
        decide
  · fin_cases h1 <;> decide

theorem tokenChar_not_special {c : Char} (h : headerTokenChar c = true) :
    c ≠ ':' ∧ c ≠ '\r' ∧ c ≠ '\n' := by
  rw [headerTokenChar] at h
  rcases (by simpa using h) with h1 | h1 | h1 | h1
  · refine ⟨?_, ?_, ?_⟩ <;> · intro hc; rw [hc] at h1; revert h1; decide
  · refine ⟨?_, ?_, ?_⟩ <;> · intro hc; rw [hc] at h1; revert h1; decide
  · refine ⟨?_, ?_, ?_⟩ <;> · intro hc; rw [hc] at h1; revert h1; decide
  · fin_cases h1 <;> decide

theorem ctlChar_cr_lf : ctlChar '\r' = true ∧ ctlChar '\n' = true := by decide

theorem headerValidate_eq_true_iff {h : SIPHeaderM} :
    headerValidate h = true ↔
      h.name ≠ [] ∧ h.value ≠ [] ∧ (∀ c ∈ h.name, headerTokenChar c = true) ∧
      (∀ c ∈ h.value, ctlChar c = false) := by
  rw [headerValidate]
  simp [List.all_eq_true, List.any_eq_true]

theorem headNotWS_of_dropWhile_eq_self {l : List Char}
    (h : l.dropWhile isPyWS = l) : headNotWS l = true := by
  cases l with
  | nil => rfl
  | cons c rest =>
    rw [List.dropWhile_cons] at h
    by_cases hp : isPyWS c = true
    · rw [if_pos hp] at h
      have hlen := congrArg List.length h
      have hle : (rest.dropWhile isPyWS).length ≤ rest.length :=
        (List.dropWhile_sublist isPyWS).length_le
      simp at hlen
      omega
    · simp [headNotWS, Bool.not_eq_true] at hp ⊢
      exact hp

theorem lastNotWS_of_pyStrip_eq_self {v : List Char} (h : pyStrip v = v) :
    headNotWS v.reverse = true := by
  have hd := dropWSRight_of_pyStrip_eq_self h
  rw [dropWSRight] at hd
  have : v.reverse.dropWhile isPyWS = v.reverse := by
    have := congrArg List.reverse hd
    simpa using this
  exact headNotWS_of_dropWhile_eq_self this

/-- Facts about a header satisfying `headerRT`, in the form the round-trip
proofs consume. -/
theorem headerRT_facts {h : SIPHeaderM} (hrt : headerRT h) :
    h.name ≠ [] ∧ h.value ≠ [] ∧ ':' ∉ h.name ∧
    lineSafe h.name = true ∧ lineSafe h.value = true ∧
    pyStrip h.name = h.name ∧ pyStrip h.value = h.value ∧
    headNotWS h.name = true := by
  obtain ⟨hv, hstr⟩ := hrt
  obtain ⟨hn, hvne, htok, hctl⟩ := headerValidate_eq_true_iff.mp hv
  have hnws : ∀ c ∈ h.name, isPyWS c = false := fun c hc => tokenChar_not_ws (htok c hc)
  have hstrname : pyStrip h.name = h.name := by
    apply pyStrip_eq_self_of
    · cases hcase : h.name with
      | nil => rfl
      | cons c rest =>
        simp only [headNotWS, Bool.not_eq_true']
        exact hnws c (by rw [hcase]; exact List.mem_cons_self c rest)
    · cases hcase : h.name.reverse with
      | nil => rfl
      | cons c rest =>
        simp only [headNotWS, Bool.not_eq_true']
        apply hnws c
        rw [← List.mem_reverse, hcase]
        exact List.mem_cons_self c rest
  refine ⟨hn, hvne, ?_, ?_, ?_, hstrname, hstr, ?_⟩
  · intro hc
    exact absurd rfl (tokenChar_not_special (htok ':' hc)).1
  · rw [lineSafe, List.all_eq_true]
    intro c hc
    obtain ⟨-, hcr, hlf⟩ := tokenChar_not_special (htok c hc)
    simp [hcr, hlf]
  · rw [lineSafe, List.all_eq_true]
    intro c hc
    have hcc := hctl c hc
    rw [ctlChar] at hcc
    have hcr : (c == '\r') = false := by
      rw [beq_eq_false_iff_ne]
      intro he
      rw [he] at hcc
      revert hcc
      decide
    have hlf : (c == '\n') = false := by
      rw [beq_eq_false_iff_ne]
      intro he
      rw [he] at hcc
      revert hcc
      decide
    rw [hcr, hlf]
    rfl
  · exact headNotWS_of_dropWhile_eq_self (dropWhile_of_pyStrip_eq_self hstrname)

theorem encodeHeader_eq (h : SIPHeaderM) :
    encodeHeader h = h.name ++ ':' :: ' ' :: h.value := by
  rw [encodeHeader, List.append_assoc]
  rfl

theorem pyStrip_encodeHeader_ne_nil {h : SIPHeaderM} (hrt : headerRT h) :
    pyStrip (encodeHeader h) ≠ [] := by
  obtain ⟨hn, -, -, -, -, hstrname, -, hhead⟩ := headerRT_facts hrt
  intro hnil
  rw [pyStrip_eq_nil_iff] at hnil
  cases hname : h.name with
  | nil => exact hn hname
  | cons c rest =>
    have hc : c ∈ encodeHeader h := by
      rw [encodeHeader_eq, hname]
      exact List.mem_append.mpr (Or.inl (List.mem_cons_self c rest))
    have := hnil c hc
    rw [hname] at hhead
    simp only [headNotWS, Bool.not_eq_true'] at hhead
    rw [this] at hhead
    exact Bool.noConfusion hhead

theorem headerScan_cons_encoded {h : SIPHeaderM} (hrt : headerRT h)
    (rest : List (List Char)) :
    headerScan (encodeHeader h :: rest) =
      (h :: (headerScan rest).1, (headerScan rest).2) := by
  obtain ⟨-, -, hcolon, -, -, hstrname, hstrval, -⟩ := headerRT_facts hrt
  rw [headerScan]
  rw [if_neg (pyStrip_encodeHeader_ne_nil hrt)]
  rcases hsr : headerScan rest with ⟨hs, r⟩
  rw [encodeHeader_eq, splitFirst_append_absent hcolon]
  show (mkHeader h.name (' ' :: h.value) :: hs, r) = _
  rw [mkHeader, hstrname, pyStrip_cons_space hstrval]

theorem headerScan_blank (rest : List (List Char)) :
    headerScan ([] :: rest) = ([], some rest) := rfl

theorem headerScan_encoded_blank (hs : List SIPHeaderM)
    (hrt : ∀ h ∈ hs, headerRT h) (rest : List (List Char)) :
    headerScan (hs.map encodeHeader ++ [] :: rest) = (hs, some rest) := by
  induction hs with
  | nil => exact headerScan_blank rest
  | cons h hs' ih =>
    rw [List.map_cons, List.cons_append,
      headerScan_cons_encoded (hrt h (List.mem_cons_self h hs')),
      ih (fun x hx => hrt x (List.mem_cons_of_mem h hx))]

theorem headerScan_encoded_noblank (hs : List SIPHeaderM)
    (hrt : ∀ h ∈ hs, headerRT h) :
    headerScan (hs.map encodeHeader) = (hs, none) := by
  induction hs with
  | nil => rfl
  | cons h hs' ih =>
    rw [List.map_cons,
      headerScan_cons_encoded (hrt h (List.mem_cons_self h hs')),
      ih (fun x hx => hrt x (List.mem_cons_of_mem h hx))]

-- ======================= decimal printing / parsing round trip =======================

theorem digitChar_toNat {n : Nat} (h : n < 10) : (digitChar n).toNat = 48 + n := by
  rw [digitChar, Nat.mod_eq_of_lt h]
  unfold Char.ofNat
  rw [dif_pos (Or.inl (by omega : 48 + n < 55296))]
  rfl

theorem digitChar_isDigit {n : Nat} (h : n < 10) : (digitChar n).isDigit = true := by
  interval_cases n <;> decide

theorem pyIntGo_digits (l : List Char) :
    ∀ acc : Nat, (∀ c ∈ l, c.isDigit = true) →
    pyInt.go l acc = some (l.foldl (fun a c => a * 10 + (c.toNat - 48)) acc) := by
  induction l with
  | nil => intro acc _; rfl
  | cons c rest ih =>
    intro acc h
    have hc : c.isDigit = true := h c (List.mem_cons_self _ _)
    have hne : ∀ (c1 : Char) (r1 : List Char), c = '_' → rest = c1 :: r1 → False := by
      intro c1 r1 he _
      rw [he] at hc
      exact absurd hc (by decide)
    have hne2 : c = '_' → rest = [] → False := by
      intro he _
      rw [he] at hc
      exact absurd hc (by decide)
    rw [pyInt.go.eq_4 acc c rest hne hne2, if_pos hc,
      ih _ (fun x hx => h x (List.mem_cons_of_mem c hx))]
    rfl

theorem digitsBody_digits {l : List Char} (hne : l ≠ [])
    (hdig : ∀ c ∈ l, c.isDigit = true) :
    pyInt.digitsBody l = some (digitsVal l) := by
  cases l with
  | nil => exact absurd rfl hne
  | cons c rest =>
    show (if c.isDigit = true then pyInt.go rest (c.toNat - 48) else none) =
      some (digitsVal (c :: rest))
    rw [if_pos (hdig c (List.mem_cons_self _ _))]
    rw [pyIntGo_digits rest (c.toNat - 48) (fun x hx => hdig x (List.mem_cons_of_mem c hx))]
    rw [digitsVal, List.foldl_cons, Nat.zero_mul, Nat.zero_add]

/-- The key inductive fact about the fuelled decimal printer. -/
theorem natReprFuel_spec : ∀ (fuel n : Nat), n < 10 ^ (fuel + 1) →
    natReprFuel (fuel + 1) n ≠ [] ∧ (∀ c ∈ natReprFuel (fuel + 1) n, c.isDigit = true) ∧
    digitsVal (natReprFuel (fuel + 1) n) = n := by
  intro fuel
  induction fuel with
  | zero =>
    intro n h
    have h10 : n < 10 := by simpa using h
    rw [natReprFuel, if_pos h10]
    refine ⟨by simp, ?_, ?_⟩
    · intro c hc
      rw [List.mem_singleton] at hc
      rw [hc]
      exact digitChar_isDigit h10
    · rw [digitsVal, List.foldl_cons, List.foldl_nil, Nat.zero_mul, Nat.zero_add,
        digitChar_toNat h10]
      omega
  | succ fuel ih =>
    intro n h
    rw [natReprFuel]
    by_cases h10 : n < 10
    · rw [if_pos h10]
      refine ⟨by simp, ?_, ?_⟩
      · intro c hc
        rw [List.mem_singleton] at hc
        rw [hc]
        exact digitChar_isDigit h10
      · rw [digitsVal, List.foldl_cons, List.foldl_nil, Nat.zero_mul, Nat.zero_add,
          digitChar_toNat h10]
        omega
    · rw [if_neg h10]
      have hdiv : n / 10 < 10 ^ (fuel + 1) := by
        rw [Nat.div_lt_iff_lt_mul (by omega)]
        calc n < 10 ^ (fuel + 1 + 1) := h
        _ = 10 ^ (fuel + 1) * 10 := by rw [Nat.pow_succ]
      obtain ⟨hne, hdig, hval⟩ := ih (n / 10) hdiv
      have hmod : n % 10 < 10 := Nat.mod_lt _ (by omega)
      refine ⟨by simp, ?_, ?_⟩
      · intro c hc
        rcases List.mem_append.mp hc with hm | hm
        · exact hdig c hm
        · rw [List.mem_singleton] at hm
          rw [hm]
          exact digitChar_isDigit hmod
      · rw [digitsVal, List.foldl_append, List.foldl_cons, List.foldl_nil]
        rw [show List.foldl (fun a c => a * 10 + (c.toNat - 48)) 0
              (natReprFuel (fuel + 1) (n / 10))
            = digitsVal (natReprFuel (fuel + 1) (n / 10)) from rfl, hval,
          digitChar_toNat hmod]
        omega

theorem natRepr_spec (n : Nat) :
    natRepr n ≠ [] ∧ (∀ c ∈ natRepr n, c.isDigit = true) ∧ digitsVal (natRepr n) = n := by
  rw [natRepr]
  exact natReprFuel_spec n n
    (lt_of_lt_of_le (Nat.lt_pow_self (by omega) n) (Nat.pow_le_pow_right (by omega) (by omega)))

theorem isDigit_not_ws {c : Char} (h : c.isDigit = true) : isPyWS c = false := by
  rw [Char.isDigit, Bool.and_eq_true, decide_eq_true_iff, decide_eq_true_iff] at h
  rw [isPyWS]
  simp only [Bool.or_eq_false_iff]
  refine ⟨⟨⟨⟨⟨?_, ?_⟩, ?_⟩, ?_⟩, ?_⟩, ?_⟩ <;>
    · rw [decide_eq_false_iff_not]
      intro hc
      rw [hc] at h
      revert h
      decide

theorem isDigit_not_sign {c : Char} (h : c.isDigit = true) : c ≠ '-' ∧ c ≠ '+' := by
  constructor <;> · intro hc; rw [hc] at h; exact absurd h (by decide)

theorem pyStrip_of_all_digits {s : List Char} (hdig : ∀ c ∈ s, c.isDigit = true) :
    pyStrip s = s := by
  apply pyStrip_eq_self_of
  · cases hs : s with
    | nil => rfl
    | cons c rest =>
      simp only [headNotWS, Bool.not_eq_true']
      exact isDigit_not_ws (hdig c (by rw [hs]; exact List.mem_cons_self _ _))
  · cases hs : s.reverse with
    | nil => rfl
    | cons c rest =>
      simp only [headNotWS, Bool.not_eq_true']
      apply isDigit_not_ws
      apply hdig c
      rw [← List.mem_reverse, hs]
      exact List.mem_cons_self _ _

/-- `int(str(n)) = n` for the natural-number printer. -/
theorem pyInt_natRepr (n : Nat) : pyInt (natRepr n) = some (n : Int) := by
  obtain ⟨hne, hdig, hval⟩ := natRepr_spec n
  rw [pyInt, pyStrip_of_all_digits hdig]
  have hbody : pyInt.digitsBody (natRepr n) = some n := by
    rw [digitsBody_digits hne hdig, hval]
  split
  · next rest heq =>
    exfalso
    have : '-' ∈ natRepr n := by rw [heq]; exact List.mem_cons_self _ _
    exact absurd (hdig '-' this) (by decide)
  · next rest heq =>
    exfalso
    have : '+' ∈ natRepr n := by rw [heq]; exact List.mem_cons_self _ _
    exact absurd (hdig '+' this) (by decide)
  · rw [hbody]
    rfl

/-- `int(str(i)) = i` for the integer printer. -/
theorem pyInt_intRepr (i : Int) : pyInt (intRepr i) = some i := by
  rw [intRepr]
  by_cases hneg : i < 0
  · rw [if_pos hneg]
    obtain ⟨hne, hdig, hval⟩ := natRepr_spec (-i).toNat
    have hstrip : pyStrip ('-' :: natRepr (-i).toNat) = '-' :: natRepr (-i).toNat := by
      apply pyStrip_eq_self_of
      · rfl
      · cases hs : ('-' :: natRepr (-i).toNat).reverse with
        | nil => rfl
        | cons c rest =>
          simp only [headNotWS, Bool.not_eq_true']
          have hc : c ∈ ('-' :: natRepr (-i).toNat).reverse := by
            rw [hs]; exact List.mem_cons_self _ _
          rw [List.mem_reverse] at hc
          rcases List.mem_cons.mp hc with hc | hc
          · rw [hc]; rfl
          · exact isDigit_not_ws (hdig c hc)
    rw [pyInt, hstrip]
    split
    · next rest heq =>
      have hrest : natRepr (-i).toNat = rest := by injection heq
      subst hrest
      rw [digitsBody_digits hne hdig, hval]
      simp [Int.toNat_of_nonneg (show (0 : Int) ≤ -i from by omega)]
    · next rest heq =>
      exact absurd heq (by simp)
    · next hne1 hne2 =>
      exact (hne1 (natRepr (-i).toNat) rfl).elim
  · rw [if_neg hneg]
    rw [pyInt_natRepr]
    rw [Int.toNat_of_nonneg (by omega)]

-- ======================= start line lemmas =======================

theorem headNotWS_of_all_not_ws {l : List Char} (h : ∀ c ∈ l, isPyWS c = false) :
    headNotWS l = true := by
  cases l with
  | nil => rfl
  | cons c rest =>
    simp only [headNotWS, Bool.not_eq_true']
    exact h c (List.mem_cons_self _ _)

theorem headNotWS_append {x : List Char} (y : List Char) (hx : x ≠ [])
    (h : headNotWS x = true) : headNotWS (x ++ y) = true := by
  cases x with
  | nil => exact absurd rfl hx
  | cons c rest => rw [List.cons_append]; exact h

theorem splitFirst_isSome_of_mem {sep : Char} {s : List Char} (h : sep ∈ s) :
    ∃ p, splitFirst sep s = some p := by
  induction s with
  | nil => exact absurd h (List.not_mem_nil sep)
  | cons c rest ih =>
    rw [splitFirst]
    by_cases hc : c = sep
    · rw [if_pos hc]
      exact ⟨_, rfl⟩
    · rw [if_neg hc]
      rcases List.mem_cons.mp h with he | hm
      · exact absurd he.symm hc
      · obtain ⟨p, hp⟩ := ih hm
        rw [hp]
        exact ⟨_, rfl⟩

theorem intRepr_not_ws {i : Int} : ∀ c ∈ intRepr i, isPyWS c = false := by
  intro c hc
  rw [intRepr] at hc
  by_cases hneg : i < 0
  · rw [if_pos hneg] at hc
    rcases List.mem_cons.mp hc with he | hm
    · rw [he]; rfl
    · exact isDigit_not_ws ((natRepr_spec _).2.1 c hm)
  · rw [if_neg hneg] at hc
    exact isDigit_not_ws ((natRepr_spec _).2.1 c hc)

theorem intRepr_ne_nil (i : Int) : intRepr i ≠ [] := by
  rw [intRepr]
  by_cases hneg : i < 0
  · rw [if_pos hneg]; simp
  · rw [if_neg hneg]; exact (natRepr_spec _).1

theorem intRepr_lineSafe (i : Int) : lineSafe (intRepr i) = true := by
  rw [lineSafe, List.all_eq_true]
  intro c hc
  have hws := intRepr_not_ws c hc
  rw [isPyWS] at hws
  simp only [Bool.or_eq_false_iff, decide_eq_false_iff_not] at hws
  have hcr : (c == '\r') = false := by
    rw [beq_eq_false_iff_ne]; exact hws.1.1.2
  have hlf : (c == '\n') = false := by
    rw [beq_eq_false_iff_ne]; exact hws.1.1.1.2
  rw [hcr, hlf]
  rfl

theorem space_not_mem_intRepr (i : Int) : ' ' ∉ intRepr i := by
  intro hm
  have := intRepr_not_ws ' ' hm
  exact absurd this (by decide)

theorem intRepr_lastNotWS (i : Int) : headNotWS (intRepr i).reverse = true := by
  apply headNotWS_of_all_not_ws
  intro c hc
  exact intRepr_not_ws c (List.mem_reverse.mp hc)

theorem dropWSRight_cons_space (r : List Char) :
    dropWSRight (' ' :: r) =
      if dropWSRight r = [] then [] else ' ' :: dropWSRight r := by
  rw [dropWSRight, show (' ' :: r).reverse = r.reverse ++ [' '] from by simp,
    List.dropWhile_append]
  by_cases hr : dropWSRight r = []
  · rw [if_pos hr]
    rw [dropWSRight] at hr
    have hnil : r.reverse.dropWhile isPyWS = [] := by
      have := congrArg List.reverse hr
      simpa using this
    rw [if_pos (by rw [hnil]; rfl)]
    rfl
  · rw [if_neg hr]
    rw [dropWSRight] at hr
    have hne : r.reverse.dropWhile isPyWS ≠ [] := by
      intro hx
      rw [hx] at hr
      exact hr rfl
    rw [if_neg (by
      cases hx : r.reverse.dropWhile isPyWS with
      | nil => exact absurd hx hne
      | cons a as => simp)]
    rw [List.reverse_append]
    rfl

theorem isPrefixOf_false_of_head_ne {a c : Char} {as cs : List Char} (h : a ≠ c) :
    List.isPrefixOf (a :: as) (c :: cs) = false := by
  rw [List.isPrefixOf]
  rw [show (a == c) = false from beq_eq_false_iff_ne.mpr h]
  rfl

/-- Per-method facts consumed by the start-line proofs. -/
theorem methodStr_facts (md : SIPMethodM) :
    methodStr md ≠ [] ∧ headNotWS (methodStr md) = true ∧ ' ' ∉ methodStr md ∧
    lineSafe (methodStr md) = true ∧ methodOfString (methodStr md) = some md := by
  cases md <;> exact ⟨by decide, by decide, by decide, by decide, rfl⟩

theorem methodStr_not_SIP (md : SIPMethodM) (y : List Char) :
    pyStartsWith (methodStr md ++ y) (chars "SIP/") = false := by
  rw [pyStartsWith]
  cases md
  · exact isPrefixOf_false_of_head_ne (by decide)
  · exact isPrefixOf_false_of_head_ne (by decide)
  · exact isPrefixOf_false_of_head_ne (by decide)
  · exact isPrefixOf_false_of_head_ne (by decide)
  · exact isPrefixOf_false_of_head_ne (by decide)
  · exact isPrefixOf_false_of_head_ne (by decide)
  · exact isPrefixOf_false_of_head_ne (by decide)
  · exact isPrefixOf_false_of_head_ne (by decide)

theorem headNotWS_reverse_append_SIPver (x : List Char) :
    headNotWS ((x ++ chars "SIP/2.0").reverse) = true := by
  rw [List.reverse_append]
  rw [show (chars "SIP/2.0").reverse = '0' :: chars ".2/PIS" from rfl]
  rfl

theorem startsWith_SIPver (x : List Char) :
    pyStartsWith (chars "SIP/2.0" ++ x) (chars "SIP/") = true := by
  rw [pyStartsWith]
  rw [show chars "SIP/2.0" ++ x = 'S' :: 'I' :: 'P' :: '/' :: (chars "2.0" ++ x) from rfl]
  rw [show chars "SIP/" = ['S', 'I', 'P', '/'] from rfl]
  show (('S' == 'S') && ('I' == 'I') && ('P' == 'P') && ('/' == '/') &&
    List.isPrefixOf [] (chars "2.0" ++ x)) = true
  rw [List.isPrefixOf]
  rfl

/-- Parsing the stripped encoded request line yields the method back (and
some URI); status code and reason stay unset. -/
theorem parseStartLine_req (m : SIPMessageM) (md : SIPMethodM)
    (hmd : m.method = some md) :
    ∃ u, parseStartLine (pyStrip (encodeStartLine m)) =
      some { emptyMessage with method := some md, uri := some u } := by
  obtain ⟨hne, hhead, hnospace, -, hms⟩ := methodStr_facts md
  have hline : encodeStartLine m =
      methodStr md ++ ' ' :: (uriStrOf m ++ ' ' :: chars "SIP/2.0") := by
    rw [encodeStartLine, hmd]
    simp
  have hstrip : pyStrip (encodeStartLine m) = encodeStartLine m := by
    apply pyStrip_eq_self_of
    · rw [hline]
      exact headNotWS_append _ hne hhead
    · rw [hline]
      rw [show methodStr md ++ ' ' :: (uriStrOf m ++ ' ' :: chars "SIP/2.0") =
          (methodStr md ++ ' ' :: uriStrOf m ++ [' ']) ++ chars "SIP/2.0" from by simp]
      exact headNotWS_reverse_append_SIPver _
  obtain ⟨⟨b, r2⟩, hsp⟩ := splitFirst_isSome_of_mem
    (show ' ' ∈ uriStrOf m ++ ' ' :: chars "SIP/2.0" from
      List.mem_append.mpr (Or.inr (List.mem_cons_self _ _)))
  have hsplit : splitSpaceMax2 (methodStr md ++ ' ' :: (uriStrOf m ++ ' ' :: chars "SIP/2.0")) =
      [methodStr md, b, r2] := by
    rw [splitSpaceMax2, splitFirst_append_absent hnospace]
    show (match splitFirst ' ' (uriStrOf m ++ ' ' :: chars "SIP/2.0") with
      | none => [methodStr md, uriStrOf m ++ ' ' :: chars "SIP/2.0"]
      | some (b, r2) => [methodStr md, b, r2]) = [methodStr md, b, r2]
    rw [hsp]
  refine ⟨parseSIPURI b, ?_⟩
  rw [hstrip, hline, parseStartLine]
  rw [if_neg (by rw [methodStr_not_SIP md]; exact Bool.false_ne_true)]
  rw [hsplit]
  show (match methodOfString (methodStr md) with
    | none => none
    | some md' => some { emptyMessage with method := some md', uri := some (parseSIPURI b) }) =
    some { emptyMessage with method := some md, uri := some (parseSIPURI b) }
  rw [hms]

/-- Parsing the stripped encoded status line yields the status code back (and
some reason); method and URI stay unset. -/
theorem parseStartLine_resp (m : SIPMessageM) (sc : Int)
    (hmd : m.method = none) (hsc : m.statusCode = some sc) :
    ∃ rsn, parseStartLine (pyStrip (encodeStartLine m)) =
      some { emptyMessage with statusCode := some sc, reason := some rsn } := by
  have hline : encodeStartLine m =
      chars "SIP/2.0" ++ ' ' :: (intRepr sc ++ ' ' :: optStr m.reason) := by
    rw [encodeStartLine, hmd, statusStrOf, hsc]
    simp
  have hdrop : (encodeStartLine m).dropWhile isPyWS = encodeStartLine m := by
    apply dropWhile_eq_self_of_headNotWS
    rw [hline]
    rfl
  have hB : dropWSRight (chars "SIP/2.0" ++ ' ' :: intRepr sc) =
      chars "SIP/2.0" ++ ' ' :: intRepr sc := by
    apply dropWSRight_eq_self_of_lastNotWS
    rw [show chars "SIP/2.0" ++ ' ' :: intRepr sc =
        (chars "SIP/2.0" ++ [' ']) ++ intRepr sc from by simp]
    rw [List.reverse_append]
    apply headNotWS_append _ (by
      intro hx
      exact intRepr_ne_nil sc (by simpa using congrArg List.reverse hx))
    exact intRepr_lastNotWS sc
  have hshape : encodeStartLine m =
      (chars "SIP/2.0" ++ ' ' :: intRepr sc) ++ ' ' :: optStr m.reason := by
    rw [hline]; simp
  cases hT : dropWSRight (' ' :: optStr m.reason) with
  | nil =>
    have hstrip : pyStrip (encodeStartLine m) = chars "SIP/2.0" ++ ' ' :: intRepr sc := by
      rw [pyStrip, hdrop, hshape, dropWSRight_append_of_nil _ hT, hB]
    refine ⟨[], ?_⟩
    rw [hstrip, parseStartLine]
    rw [if_pos (startsWith_SIPver _)]
    have hsplit : splitSpaceMax2 (chars "SIP/2.0" ++ ' ' :: intRepr sc) =
        [chars "SIP/2.0", intRepr sc] := by
      rw [splitSpaceMax2, splitFirst_append_absent (by decide)]
      show (match splitFirst ' ' (intRepr sc) with
        | none => [chars "SIP/2.0", intRepr sc]
        | some (b, r2) => [chars "SIP/2.0", b, r2]) = [chars "SIP/2.0", intRepr sc]
      rw [splitFirst_eq_none_of (space_not_mem_intRepr sc)]
    rw [hsplit]
    show (match pyInt (intRepr sc) with
      | none => none
      | some sc' =>
        some { emptyMessage with statusCode := some sc', reason := some [] }) =
      some { emptyMessage with statusCode := some sc, reason := some [] }
    rw [pyInt_intRepr]
  | cons t ts =>
    have hTval : dropWSRight (' ' :: optStr m.reason) = ' ' :: dropWSRight (optStr m.reason) := by
      rw [dropWSRight_cons_space]
      rw [dropWSRight_cons_space] at hT
      by_cases hr : dropWSRight (optStr m.reason) = []
      · rw [if_pos hr] at hT
        exact absurd hT.symm (by simp)
      · rw [if_neg hr]
    have hstrip : pyStrip (encodeStartLine m) =
        chars "SIP/2.0" ++ ' ' :: (intRepr sc ++ ' ' :: dropWSRight (optStr m.reason)) := by
      rw [pyStrip, hdrop, hshape, dropWSRight_append_of_ne_nil _ (by rw [hT]; simp),
        hTval]
      simp
    refine ⟨dropWSRight (optStr m.reason), ?_⟩
    rw [hstrip, parseStartLine]
    rw [if_pos (startsWith_SIPver _)]
    have hsplit : splitSpaceMax2
        (chars "SIP/2.0" ++ ' ' :: (intRepr sc ++ ' ' :: dropWSRight (optStr m.reason))) =
        [chars "SIP/2.0", intRepr sc, dropWSRight (optStr m.reason)] := by
      rw [splitSpaceMax2, splitFirst_append_absent (by decide)]
      show (match splitFirst ' ' (intRepr sc ++ ' ' :: dropWSRight (optStr m.reason)) with
        | none => [chars "SIP/2.0", intRepr sc ++ ' ' :: dropWSRight (optStr m.reason)]
        | some (b, r2) => [chars "SIP/2.0", b, r2]) =
        [chars "SIP/2.0", intRepr sc, dropWSRight (optStr m.reason)]
      rw [splitFirst_append_absent (space_not_mem_intRepr sc)]
    rw [hsplit]
    show (match pyInt (intRepr sc) with
      | none => none
      | some sc' =>
        some { emptyMessage with
               statusCode := some sc', reason := some (dropWSRight (optStr m.reason)) }) =
      some { emptyMessage with
             statusCode := some sc, reason := some (dropWSRight (optStr m.reason)) }
    rw [pyInt_intRepr]


-- ======================= message round trip (encode then parse) =======================

theorem joinCRLF_append_singleton {A : List (List Char)} (x : List Char)
    (h : A ≠ []) : joinCRLF (A ++ [x]) = joinCRLF A ++ '\r' :: '\n' :: x := by
  induction A with
  | nil => exact absurd rfl h
  | cons a A2 ih =>
    cases A2 with
    | nil => rfl
    | cons b B =>
      rw [List.cons_append]
      rw [joinCRLF_cons_of_ne_nil a (show (b :: B) ++ [x] ≠ [] by simp)]
      rw [ih (by simp)]
      rw [joinCRLF_cons_of_ne_nil a (show b :: B ≠ [] by simp)]
      simp

theorem pyStrip_ne_nil_of_lastNotWS {s : List Char} (hne : s ≠ [])
    (hlast : headNotWS s.reverse = true) : pyStrip s ≠ [] := by
  intro hx
  have hall := pyStrip_eq_nil_iff.mp hx
  cases hcr : s.reverse with
  | nil => exact hne (List.reverse_eq_nil_iff.mp hcr)
  | cons c r =>
    have hc : c ∈ s := by
      rw [← List.mem_reverse, hcr]
      exact List.mem_cons_self _ _
    rw [hcr] at hlast
    simp only [headNotWS, Bool.not_eq_true'] at hlast
    rw [hall c hc] at hlast
    exact Bool.noConfusion hlast

theorem pyStrip_cons_ws {v : List Char} {c : Char} (hc : isPyWS c = true) :
    pyStrip (c :: v) = pyStrip v := by
  rw [pyStrip, pyStrip, List.dropWhile_cons, if_pos hc]

theorem encodeStartLine_ne_nil (m : SIPMessageM) : encodeStartLine m ≠ [] := by
  rw [encodeStartLine]
  cases m.method <;> simp

theorem headNotWS_encodeStartLine (m : SIPMessageM) :
    headNotWS (encodeStartLine m) = true := by
  rw [encodeStartLine]
  cases m.method with
  | none => rfl
  | some md =>
    obtain ⟨hne, hhead, -, -, -⟩ := methodStr_facts md
    exact headNotWS_append _ (fun hx => hne (List.append_eq_nil.mp hx).1)
      (headNotWS_append _ hne hhead)

theorem lineSafe_encodeStartLine (m : SIPMessageM)
    (h1 : lineSafe (uriStrOf m) = true) (h2 : lineSafe (optStr m.reason) = true) :
    lineSafe (encodeStartLine m) = true := by
  rw [encodeStartLine]
  cases m.method with
  | some md =>
    obtain ⟨-, -, -, hls, -⟩ := methodStr_facts md
    show lineSafe ((methodStr md ++ ([' '] ++ uriStrOf m)) ++ ([' '] ++ chars "SIP/2.0")) = true
    exact lineSafe_append (lineSafe_append hls (lineSafe_append (by decide) h1))
      (lineSafe_append (by decide) (by decide))
  | none =>
    have hsc : lineSafe (statusStrOf m) = true := by
      rw [statusStrOf]
      cases m.statusCode with
      | none => decide
      | some sc => exact intRepr_lineSafe sc
    show lineSafe ((chars "SIP/2.0" ++ ([' '] ++ statusStrOf m)) ++ ([' '] ++ optStr m.reason)) = true
    exact lineSafe_append (lineSafe_append (by decide) (lineSafe_append (by decide) hsc))
      (lineSafe_append (by decide) h2)

theorem encodeHeader_ne_nil (h : SIPHeaderM) : encodeHeader h ≠ [] := by
  rw [encodeHeader_eq]
  intro hx
  simp at hx

theorem lastNotWS_encodeHeader {h : SIPHeaderM} (hrt : headerRT h) :
    headNotWS (encodeHeader h).reverse = true := by
  obtain ⟨-, hvne, -, -, -, -, hstrv, -⟩ := headerRT_facts hrt
  rw [encodeHeader_eq]
  rw [show h.name ++ ':' :: ' ' :: h.value = (h.name ++ [':', ' ']) ++ h.value from by simp]
  rw [List.reverse_append]
  exact headNotWS_append _ (fun hx => hvne (List.reverse_eq_nil_iff.mp hx))
    (lastNotWS_of_pyStrip_eq_self hstrv)

theorem hasCRLF_encodeHeader {h : SIPHeaderM} (hrt : headerRT h) :
    hasCRLF (encodeHeader h) = false := by
  obtain ⟨-, -, -, hlsn, hlsv, -, -, -⟩ := headerRT_facts hrt
  apply hasCRLF_eq_false_of_lineSafe
  rw [encodeHeader_eq]
  rw [show h.name ++ ':' :: ' ' :: h.value = h.name ++ ([':', ' '] ++ h.value) from by simp]
  exact lineSafe_append hlsn (lineSafe_append (by decide) hlsv)

theorem parseStartLine_encode (m : SIPMessageM)
    (hmode : (m.method.isSome = true ∧ m.statusCode = none) ∨
      (m.method = none ∧ m.statusCode.isSome = true)) :
    ∃ m0, parseStartLine (pyStrip (encodeStartLine m)) = some m0 ∧
      m0.method = m.method ∧ m0.statusCode = m.statusCode ∧ m0.body = none := by
  rcases hmode with ⟨hms, hsn⟩ | ⟨hmn, hss⟩
  · obtain ⟨md, hmd⟩ := Option.isSome_iff_exists.mp hms
    obtain ⟨u, hu⟩ := parseStartLine_req m md hmd
    exact ⟨_, hu, by simp [emptyMessage, hmd], by simp [emptyMessage, hsn], rfl⟩
  · obtain ⟨sc, hsc⟩ := Option.isSome_iff_exists.mp hss
    obtain ⟨rsn, hr⟩ := parseStartLine_resp m sc hmn hsc
    exact ⟨_, hr, by simp [emptyMessage, hmn], by simp [emptyMessage, hsc], rfl⟩


/-- The well-formedness bundle under which the encode/parse round trip is
exact: every header validates and carries a pre-stripped value, at least one
header is present, the message is exactly a request or exactly a response,
the URI and reason render without CR or LF, and a body (when present) is
nonempty, ends in non-whitespace, and is matched by an explicit
Content-Length header. -/
def messageRT (m : SIPMessageM) : Bool :=
  m.headers.all (fun h => headerValidate h && (pyStrip h.value == h.value)) &&
  decide (m.headers ≠ []) &&
  ((m.method.isSome && m.statusCode.isNone) || (m.method.isNone && m.statusCode.isSome)) &&
  lineSafe (uriStrOf m) &&
  lineSafe (optStr m.reason) &&
  (match m.body with
   | none => true
   | some b =>
     decide (b.content ≠ []) && headNotWS b.content.reverse &&
       (getHeader m (chars "content-length")).isSome)

/-- C4 (amended): for every message satisfying the `messageRT` well-formedness
bundle (which in particular requires an explicit Content-Length header
whenever a body is present), parsing the serialization succeeds and returns
the same method or status code, the same headers in the same order, and the
same body bytes. -/
theorem parseEncodeRoundTrip (m : SIPMessageM) (hrt : messageRT m = true) :
    ∃ m2, parseSIP (encodeSIP m) = some m2 ∧
      m2.method = m.method ∧ m2.statusCode = m.statusCode ∧
      m2.headers = m.headers ∧
      Option.map SIPBodyM.content m2.body = Option.map SIPBodyM.content m.body := by
  rw [messageRT] at hrt
  simp only [Bool.and_eq_true, Bool.or_eq_true, List.all_eq_true, decide_eq_true_eq,
    beq_iff_eq, Option.isNone_iff_eq_none] at hrt
  obtain ⟨⟨⟨⟨⟨hhdr, hne⟩, hmode⟩, hsafe1⟩, hsafe2⟩, hbody⟩ := hrt
  have hhdrRT : ∀ h ∈ m.headers, headerRT h := fun h hm => hhdr h hm
  obtain ⟨m0, hm0, hm0m, hm0s, hm0b⟩ := parseStartLine_encode m hmode
  have hS : hasCRLF (encodeStartLine m) = false :=
    hasCRLF_eq_false_of_lineSafe (lineSafe_encodeStartLine m hsafe1 hsafe2)
  cases hb : m.body with
  | none =>
    rcases List.eq_nil_or_concat m.headers with hnil | ⟨H, hl, hHL⟩
    · exact absurd hnil hne
    have hlmem : hl ∈ m.headers := by
      rw [hHL]
      simp
    have hlrt := hhdrRT hl hlmem
    have hshape : encodeSIP m =
        joinCRLF ((encodeStartLine m :: m.headers.map encodeHeader) ++ [[]]) := by
      simp only [encodeSIP, hb]
      simp
    have hmsg : encodeSIP m =
        joinCRLF (encodeStartLine m :: m.headers.map encodeHeader) ++ '\r' :: '\n' :: [] := by
      rw [hshape, joinCRLF_append_singleton ([] : List Char)
        (show encodeStartLine m :: m.headers.map encodeHeader ≠ [] by simp)]
    have hHLne : m.headers.map encodeHeader ≠ [] := by
      rw [hHL]
      simp
    have hJ : joinCRLF (encodeStartLine m :: m.headers.map encodeHeader) =
        joinCRLF (encodeStartLine m :: H.map encodeHeader) ++
          '\r' :: '\n' :: encodeHeader hl := by
      rw [hHL, List.concat_eq_append, List.map_append]
      rw [show encodeStartLine m :: (H.map encodeHeader ++ List.map encodeHeader [hl]) =
          (encodeStartLine m :: H.map encodeHeader) ++ [encodeHeader hl] from by simp]
      rw [joinCRLF_append_singleton (encodeHeader hl)
        (show encodeStartLine m :: H.map encodeHeader ≠ [] by simp)]
    have hlast : headNotWS
        (joinCRLF (encodeStartLine m :: m.headers.map encodeHeader)).reverse = true := by
      rw [hJ]
      rw [show joinCRLF (encodeStartLine m :: H.map encodeHeader) ++
          '\r' :: '\n' :: encodeHeader hl =
          (joinCRLF (encodeStartLine m :: H.map encodeHeader) ++ ['\r', '\n']) ++
            encodeHeader hl from by simp]
      rw [List.reverse_append]
      exact headNotWS_append _
        (fun hx => encodeHeader_ne_nil hl (List.reverse_eq_nil_iff.mp hx))
        (lastNotWS_encodeHeader hlrt)
    have hstrip : pyStrip (encodeSIP m) =
        joinCRLF (encodeStartLine m :: m.headers.map encodeHeader) := by
      rw [pyStrip, hmsg]
      have hh : headNotWS (joinCRLF (encodeStartLine m :: m.headers.map encodeHeader) ++
          '\r' :: '\n' :: []) = true := by
        rw [joinCRLF_cons_of_ne_nil _ hHLne, List.append_assoc]
        exact headNotWS_append _ (encodeStartLine_ne_nil m) (headNotWS_encodeStartLine m)
      rw [dropWhile_eq_self_of_headNotWS hh]
      rw [dropWSRight_append_crlf]
      exact dropWSRight_eq_self_of_lastNotWS hlast
    have hsplitmsg : splitCRLF (pyStrip (encodeSIP m)) =
        encodeStartLine m :: m.headers.map encodeHeader := by
      rw [hstrip, hHL, List.concat_eq_append, List.map_append]
      rw [show encodeStartLine m :: (H.map encodeHeader ++ List.map encodeHeader [hl]) =
          (encodeStartLine m :: H.map encodeHeader) ++ [encodeHeader hl] from by simp]
      have hfacts : ∀ l ∈ encodeStartLine m :: H.map encodeHeader, hasCRLF l = false := by
        intro l hlm
        rcases List.mem_cons.mp hlm with rfl | hlm
        · exact hS
        · obtain ⟨h0, hh0, rfl⟩ := List.mem_map.mp hlm
          apply hasCRLF_encodeHeader
          apply hhdrRT
          rw [hHL, List.concat_eq_append]
          exact List.mem_append.mpr (Or.inl hh0)
      rw [splitCRLF_join_front hfacts (encodeHeader hl)]
      rw [splitCRLF_no_crlf (hasCRLF_encodeHeader hlrt)]
    refine ⟨{ m0 with headers := m.headers }, ?_, by simp [hm0m], by simp [hm0s], by simp,
      by simp [hm0b, hb]⟩
    simp only [parseSIP, hsplitmsg, hm0, headerScan_encoded_noblank m.headers hhdrRT]
  | some b =>
    simp only [hb, Bool.and_eq_true, decide_eq_true_eq] at hbody
    obtain ⟨⟨hbne, hblast⟩, hCLs⟩ := hbody
    have hCLne : getHeader m (chars "content-length") ≠ none := by
      intro hx
      rw [hx] at hCLs
      exact Bool.noConfusion hCLs
    have hshape : encodeSIP m =
        joinCRLF ((encodeStartLine m :: (m.headers.map encodeHeader ++ [[]])) ++
          [b.content]) := by
      simp only [encodeSIP, hb]
      rw [if_neg hCLne]
      simp
    have hstrip : pyStrip (encodeSIP m) = encodeSIP m := by
      have hmsg : encodeSIP m =
          joinCRLF (encodeStartLine m :: (m.headers.map encodeHeader ++ [[]])) ++
            '\r' :: '\n' :: b.content := by
        rw [hshape, joinCRLF_append_singleton b.content
          (show encodeStartLine m :: (m.headers.map encodeHeader ++ [[]]) ≠ [] by simp)]
      apply pyStrip_eq_self_of
      · rw [hmsg, joinCRLF_cons_of_ne_nil _
          (show m.headers.map encodeHeader ++ [[]] ≠ [] by simp), List.append_assoc]
        exact headNotWS_append _ (encodeStartLine_ne_nil m) (headNotWS_encodeStartLine m)
      · rw [hmsg]
        rw [show joinCRLF (encodeStartLine m :: (m.headers.map encodeHeader ++ [[]])) ++
            '\r' :: '\n' :: b.content =
            (joinCRLF (encodeStartLine m :: (m.headers.map encodeHeader ++ [[]])) ++
              ['\r', '\n']) ++ b.content from by simp]
        rw [List.reverse_append]
        exact headNotWS_append _
          (fun hx => hbne (List.reverse_eq_nil_iff.mp hx)) hblast
    have hsplit : splitCRLF (pyStrip (encodeSIP m)) =
        (encodeStartLine m :: (m.headers.map encodeHeader ++ [[]])) ++
          splitCRLF b.content := by
      rw [hstrip, hshape]
      apply splitCRLF_join_front
      intro l hlm
      rcases List.mem_cons.mp hlm with rfl | hlm
      · exact hS
      rcases List.mem_append.mp hlm with hlm | hlm
      · obtain ⟨h0, hh0, rfl⟩ := List.mem_map.mp hlm
        exact hasCRLF_encodeHeader (hhdrRT h0 hh0)
      · have hleq : l = [] := by simpa using hlm
        rw [hleq]
        rfl
    have hrest : headerScan ((m.headers.map encodeHeader ++ [[]]) ++ splitCRLF b.content) =
        (m.headers, some (splitCRLF b.content)) := by
      rw [List.append_assoc]
      rw [show ([[]] : List (List Char)) ++ splitCRLF b.content =
          [] :: splitCRLF b.content from rfl]
      exact headerScan_encoded_blank m.headers hhdrRT _
    have hbls : splitCRLF b.content ≠ [] := splitCRLF_ne_nil _
    have hjoin : joinCRLF (splitCRLF b.content) = b.content := joinCRLF_splitCRLF _
    have hpne : pyStrip b.content ≠ [] := pyStrip_ne_nil_of_lastNotWS hbne hblast
    refine ⟨{ m0 with
              headers := m.headers,
              body := some ⟨b.content,
                (match m.headers.find? (fun h => pyLower h.name = chars "content-type") with
                 | some h => h.value
                 | none => chars "text/plain")⟩ },
      ?_, by simp [hm0m], by simp [hm0s], by simp, by simp [hb]⟩
    simp only [parseSIP, hsplit, List.cons_append, hm0, hrest, hjoin, if_neg hbls,
      if_neg hpne]


/-- A concrete well-formed 200 OK response carrying an explicit
Content-Length header, used to instantiate the round-trip theorem. -/
def c4w : SIPMessageM :=
  { method := none, uri := none, statusCode := some 200,
    reason := some (chars "OK"),
    headers := [⟨chars "Via", chars "SIP/2.0/UDP host"⟩,
                ⟨chars "Content-Length", chars "3"⟩],
    body := some ⟨chars "abc", chars "text/plain"⟩ }

/-- Witness: the amended round-trip theorem applied to the concrete
response `c4w`, whose hypotheses hold by computation. -/
theorem parseEncodeRoundTrip_witness :
    messageRT c4w = true ∧
    (∃ m2, parseSIP (encodeSIP c4w) = some m2 ∧
      m2.method = c4w.method ∧ m2.statusCode = c4w.statusCode ∧
      m2.headers = c4w.headers ∧
      Option.map SIPBodyM.content m2.body = Option.map SIPBodyM.content c4w.body) :=
  ⟨by decide, parseEncodeRoundTrip c4w (by decide)⟩

/-- The same response as `c4w` but without a Content-Length header: it still
passes the message validator, yet the round trip does not preserve its
header list. -/
def c4cex : SIPMessageM :=
  { method := none, uri := none, statusCode := some 200,
    reason := some (chars "OK"),
    headers := [⟨chars "Via", chars "SIP/2.0/UDP host"⟩],
    body := some ⟨chars "abc", chars "text/plain"⟩ }

/-- C4 counterexample: a valid response with a body but no Content-Length
header gains a Content-Length header on the encode/parse round trip, so its
header list is not preserved. -/
theorem parseEncodeRoundTrip_cex :
    validateSIP c4cex = true ∧
    (parseSIP (encodeSIP c4cex)).map SIPMessageM.headers =
      some (c4cex.headers ++ [⟨chars "Content-Length", chars "3"⟩]) ∧
    c4cex.headers ++ [(⟨chars "Content-Length", chars "3"⟩ : SIPHeaderM)] ≠
      c4cex.headers := by
  decide


-- ======================= header continuation lines =======================

/-- C9 (amended): a header line followed by a whitespace-led continuation
line is never folded: when the continuation holds no colon the parser drops
it, and the preceding header keeps its original value, leaving exactly one
header with that value. -/
theorem headerContinuationNotFolded (h : SIPHeaderM) (hrt : headerRT h)
    (cont : List Char) (hcne : cont ≠ []) (hlast : headNotWS cont.reverse = true)
    (hsafe : lineSafe cont = true) (hcolon : ':' ∉ cont) :
    ∃ m2, parseSIP (joinCRLF [chars "OPTIONS sip:a SIP/2.0", encodeHeader h,
      ' ' :: cont]) = some m2 ∧ m2.headers = [h] := by
  have hraw : joinCRLF [chars "OPTIONS sip:a SIP/2.0", encodeHeader h, ' ' :: cont] =
      joinCRLF ([chars "OPTIONS sip:a SIP/2.0", encodeHeader h] ++ [' ' :: cont]) := rfl
  have hstrip : pyStrip (joinCRLF [chars "OPTIONS sip:a SIP/2.0", encodeHeader h,
      ' ' :: cont]) = joinCRLF [chars "OPTIONS sip:a SIP/2.0", encodeHeader h,
      ' ' :: cont] := by
    apply pyStrip_eq_self_of
    · rfl
    · rw [show joinCRLF [chars "OPTIONS sip:a SIP/2.0", encodeHeader h, ' ' :: cont] =
          (chars "OPTIONS sip:a SIP/2.0" ++
            '\r' :: '\n' :: (encodeHeader h ++ ['\r', '\n', ' '])) ++ cont from by
        rw [joinCRLF_cons_of_ne_nil _ (show [encodeHeader h, ' ' :: cont] ≠ [] by simp)]
        rw [joinCRLF_cons_of_ne_nil _ (show [' ' :: cont] ≠ [] by simp)]
        rw [show joinCRLF [' ' :: cont] = ' ' :: cont from rfl]
        simp]
      rw [List.reverse_append]
      exact headNotWS_append _ (fun hx => hcne (List.reverse_eq_nil_iff.mp hx)) hlast
  have hfacts : ∀ l ∈ [chars "OPTIONS sip:a SIP/2.0", encodeHeader h],
      hasCRLF l = false := by
    intro l hlm
    rcases List.mem_cons.mp hlm with rfl | hlm
    · decide
    · have hleq : l = encodeHeader h := by simpa using hlm
      rw [hleq]
      exact hasCRLF_encodeHeader hrt
  have hsc : hasCRLF (' ' :: cont) = false := by
    apply hasCRLF_eq_false_of_lineSafe
    show lineSafe ([' '] ++ cont) = true
    exact lineSafe_append (by decide) hsafe
  have hsplitr : splitCRLF (joinCRLF [chars "OPTIONS sip:a SIP/2.0", encodeHeader h,
      ' ' :: cont]) = [chars "OPTIONS sip:a SIP/2.0", encodeHeader h, ' ' :: cont] := by
    rw [hraw, splitCRLF_join_front hfacts (' ' :: cont), splitCRLF_no_crlf hsc]
    rfl
  have hstart : parseStartLine (pyStrip (chars "OPTIONS sip:a SIP/2.0")) =
      some { emptyMessage with
             method := some SIPMethodM.OPTIONS,
             uri := some (parseSIPURI (chars "sip:a")) } := by decide
  have hpsc : pyStrip (' ' :: cont) ≠ [] := by
    rw [pyStrip_cons_ws (by decide)]
    exact pyStrip_ne_nil_of_lastNotWS hcne hlast
  have hcont : headerScan [' ' :: cont] = ([], none) := by
    rw [headerScan, if_neg hpsc]
    rw [splitFirst_eq_none_of (show ':' ∉ ' ' :: cont from by
      intro hx
      rcases List.mem_cons.mp hx with he | hm
      · exact absurd he (by decide)
      · exact hcolon hm)]
    rfl
  have hscan : headerScan [encodeHeader h, ' ' :: cont] = ([h], none) := by
    rw [headerScan_cons_encoded hrt, hcont]
  refine ⟨{ emptyMessage with
            method := some SIPMethodM.OPTIONS,
            uri := some (parseSIPURI (chars "sip:a")),
            headers := [h] },
    ?_, by simp⟩
  simp only [parseSIP, hstrip, hsplitr, hstart, hscan]

/-- Witness: the continuation theorem applied to a concrete Subject header
followed by the continuation line consisting of a space and the word
second. -/
theorem headerContinuationNotFolded_witness :
    headerRT ⟨chars "Subject", chars "first"⟩ ∧
    (chars "second" ≠ [] ∧ headNotWS (chars "second").reverse = true ∧
      lineSafe (chars "second") = true ∧ ':' ∉ chars "second") ∧
    (∃ m2, parseSIP (joinCRLF [chars "OPTIONS sip:a SIP/2.0",
        encodeHeader ⟨chars "Subject", chars "first"⟩,
        ' ' :: chars "second"]) = some m2 ∧
      m2.headers = [(⟨chars "Subject", chars "first"⟩ : SIPHeaderM)]) :=
  ⟨⟨by decide, by decide⟩, ⟨by decide, by decide, by decide, by decide⟩,
    headerContinuationNotFolded ⟨chars "Subject", chars "first"⟩ ⟨by decide, by decide⟩
      (chars "second") (by decide) (by decide) (by decide) (by decide)⟩

/-- C9 counterexample: a raw message with a Subject header and a
whitespace-led continuation line parses to a single Subject header whose
value is only the first fragment, not the folded value. -/
theorem headerContinuationNotFolded_cex :
    (parseSIP (chars "OPTIONS sip:a SIP/2.0\r\nSubject: first\r\n second\r\n\r\n")).map
        SIPMessageM.headers = some [⟨chars "Subject", chars "first"⟩] ∧
    some [(⟨chars "Subject", chars "first"⟩ : SIPHeaderM)] ≠
      some [⟨chars "Subject", chars "first second"⟩] := by
  decide

end TinySip
